import Mathlib

/-!
# Verification of pmap-lit

A shallow embedding of the core of the `pmap-lit` repository:

* `src/index.ts` — the `pMap` scheduler/driver (`next`, the detached task
  bodies, the concurrency runner loop, `reject`, input validation);
* `src/aggregate-error.ts` — the `AggregateError` class, `indentString`
  and `cleanInternalStack`;
* the plain-JavaScript variant of `pMap` (shipped alongside the TypeScript
  one), which differs from the TypeScript core only in the position of one
  `isResolved` guard.

JavaScript's single-threaded cooperative concurrency is modelled as a
small-step transition system: the shared mutable variables of one `pMap`
call form a state record, every pending continuation (the runner loop, a
detached mapper task) is a *strand*, and a scheduler nondeterministically
picks which ready strand runs its next synchronous block.  Suspension
points are the `await`s of the source; a synchronous block between two
suspension points executes atomically, exactly as in the event loop.
JavaScript strings are embedded as `List Char`, JavaScript numbers used as
`concurrency` as an inductive (`integer / +Infinity / other`) and the
mapper as a pure function returning `Except` (a rejected promise is an
`Except.error`).
-/

namespace PMapLit

/-- A mapper result: either a proper value or the unique `pMapSkip`
sentinel (`Symbol('skip')` in `src/index.ts`).  The sentinel is compared
only by identity, which the dedicated constructor captures. -/
inductive MapOut (R : Type) where
  | val (r : R)
  | skip
deriving DecidableEq, Repr

/-- One pull from the underlying iterator: the iterator either yields a
value or throws.  Pulling past the end of the list yields `done`; a
throwing position does not terminate the iterator (matching iterators such
as the test-suite's `ThrowingIterator`, which keep advancing). -/
inductive PullItem (T E : Type) where
  | val (t : T)
  | err (e : E)
deriving DecidableEq, Repr

/-- The identity test `value === pMapSkip` of `src/index.ts`. -/
def MapOut.isSkip : MapOut R → Bool
  | .skip => true
  | .val _ => false

/-- The `concurrency` option after validation: a natural number or
`Number.POSITIVE_INFINITY`. -/
inductive Conc where
  | num (n : Nat)
  | inf
deriving DecidableEq, Repr

/-- The driver-loop guard `index < concurrency` of `src/index.ts`. -/
def Conc.ltGuard (i : Nat) : Conc → Bool
  | .num n => decide (i < n)
  | .inf => true

/-- One `pMap` call after validation: the source iterator, the mapper, the
concurrency window and the `stopOnError` flag. -/
structure Cfg (T R E : Type) where
  source : List (PullItem T E)
  mapper : T → Nat → Except E (MapOut R)
  conc : Conc
  stopOnError : Bool

/-- A rejection reason: a direct error (pull or mapper failure) or the
`AggregateError` built from the error log. -/
inductive Reason (E : Type) where
  | err (e : E)
  | aggregate (es : List E)
deriving DecidableEq, Repr

/-- A settlement of the promise returned by `pMap`.  `resolved` carries the
array passed to `resolve`; array holes (indices never written) are `none`. -/
inductive Outcome (R E : Type) where
  | resolved (xs : List (Option (MapOut R)))
  | rejected (r : Reason E)
deriving DecidableEq, Repr

/-- The shared mutable variables of one `pMap` call (`src/index.ts`,
lines 94–105): the sparse `result` array (function plus its JS length),
the `errors` log, the key set of `skippedIndexesMap`, the four flags, the
two counters, the iterator position, the promise settlement (first
`resolve`/`reject` wins) and the list of indices at which the mapper has
been invoked. -/
structure St (R E : Type) where
  result : Nat → Option (MapOut R)
  resultLen : Nat
  errors : List E
  skipped : List Nat
  isRejected : Bool
  isResolved : Bool
  isIterableDone : Bool
  resolvingCount : Int
  currentIndex : Nat
  pulled : Nat
  outcome : Option (Outcome R E)
  mapperCalls : List Nat

/-- The state at the start of a `pMap` call. -/
def initSt : St R E :=
  { result := fun _ => none
    resultLen := 0
    errors := []
    skipped := []
    isRejected := false
    isResolved := false
    isIterableDone := false
    resolvingCount := 0
    currentIndex := 0
    pulled := 0
    outcome := none
    mapperCalls := [] }

/-- Settling the promise: a JS promise settles at most once, so a later
`resolve`/`reject` call leaves the recorded outcome unchanged. -/
def settleSt (s : St R E) (o : Outcome R E) : St R E :=
  { s with outcome := s.outcome.orElse (fun _ => some o) }

/-- The `reject` helper (`src/index.ts`, lines 110–114): set `isRejected`
and `isResolved`, then reject the outer promise. -/
def rejectSt (s : St R E) (r : Reason E) : St R E :=
  settleSt { s with isRejected := true, isResolved := true } (.rejected r)

/-- `resolve(result)`: the `result` array as a JS value (holes included). -/
def resolvedList (s : St R E) : List (Option (MapOut R)) :=
  (List.range s.resultLen).map s.result

/-- The `pureResult` loop (`src/index.ts`, lines 145–154): iterate
`result.entries()` in index order and keep the entries whose index is not
in `skippedIndexesMap`. -/
def pureResultList (s : St R E) : List (Option (MapOut R)) :=
  (((List.range s.resultLen).filter (fun i => !(s.skipped.contains i))).map s.result)

/-- The result of one call to `next()` as seen by its awaiting caller:
it returned normally (possibly having spawned a detached task for the
pulled element), or the pull itself threw. -/
inductive NextRes (T E : Type) where
  | ok (spawn : Option (Nat × T))
  | threw (e : E)

/-- The `done` branch of `next()` (`src/index.ts`, lines 129–159): record
exhaustion, and — only once, guarded by `resolvingCount === 0 &&
!isResolved` — either reject with the aggregated error log (under
`stopOnError = false` with a non-empty log) or mark resolution and resolve
with the (compacted, when skips exist) result buffer. -/
def doneStep (cfg : Cfg T R E) (s : St R E) : St R E × NextRes T E :=
  let s₁ := { s with pulled := s.pulled + 1, currentIndex := s.currentIndex + 1,
                     isIterableDone := true }
  if s₁.resolvingCount = 0 ∧ s₁.isResolved = false then
    if cfg.stopOnError = false ∧ s₁.errors.isEmpty = false then
      (rejectSt s₁ (.aggregate s₁.errors), .ok none)
    else
      let s₂ := { s₁ with isResolved := true }
      if s₂.skipped.isEmpty then
        (settleSt s₂ (.resolved (resolvedList s₂)), .ok none)
      else
        (settleSt s₂ (.resolved (pureResultList s₂)), .ok none)
  else (s₁, .ok none)

/-- The body of `next()` (`src/index.ts`, lines 116–204) up to its return,
excluding the detached task it spawns: the `isResolved` early return, the
pull `await iterator.next()` (a throwing pull advances the iterator but
never reaches the index assignment), the index assignment, and the
`done` shutdown branch. -/
def doNext (cfg : Cfg T R E) (s : St R E) : St R E × NextRes T E :=
  if s.isResolved then (s, .ok none)
  else
    match cfg.source.get? s.pulled with
    | some (.err e) => ({ s with pulled := s.pulled + 1 }, .threw e)
    | some (.val t) =>
        let index := s.currentIndex
        ({ s with pulled := s.pulled + 1, currentIndex := index + 1,
                  resolvingCount := s.resolvingCount + 1 },
         .ok (some (index, t)))
    | none => doneStep cfg s

/-- A pending continuation of the call: the runner loop about to run its
`i`-th iteration, a detached task that has pulled element `t` at `index`
but not yet invoked the mapper, or a detached task whose mapper invocation
at `index` is in flight with latent settlement `out`. -/
inductive Strand (T R E : Type) where
  | driver (i : Nat)
  | taskStart (index : Nat) (t : T)
  | taskAwait (index : Nat) (out : Except E (MapOut R))

/-- The strands spawned by a `next()` return value. -/
def spawnOf : Option (Nat × T) → List (Strand T R E)
  | none => []
  | some (i, t) => [.taskStart i t]

/-- The error-logging prefix of the catch block under
`stopOnError = false`: append to `errors` and decrement `resolvingCount`
(`src/index.ts`, lines 189–190). -/
def logError (s : St R E) (e : E) : St R E :=
  { s with errors := s.errors ++ [e], resolvingCount := s.resolvingCount - 1 }

/-- The catch block of the detached task (`src/index.ts`, lines 184–202):
reject on the first error when `stopOnError`; otherwise log the error,
decrement `resolvingCount` and pull the next item, rejecting immediately
if that pull itself throws. -/
def catchBlock (cfg : Cfg T R E) (s : St R E) (e : E) : St R E × List (Strand T R E) :=
  if cfg.stopOnError then (rejectSt s (.err e), [])
  else
    match doNext cfg (logError s e) with
    | (s₂, .ok sp) => (s₂, spawnOf sp)
    | (s₂, .threw e₂) => (rejectSt s₂ (.err e₂), [])

/-- The success path of a settling task (`src/index.ts`, lines 176–181):
stage the skipped index when the value is the sentinel, write
`result[index]`, update the array length and decrement `resolvingCount`. -/
def writeResult (s : St R E) (index : Nat) (v : MapOut R) : St R E :=
  { s with
    skipped := if v.isSkip then
        (if s.skipped.contains index then s.skipped else index :: s.skipped)
      else s.skipped,
    result := fun j => if j = index then some v else s.result j,
    resultLen := max s.resultLen (index + 1),
    resolvingCount := s.resolvingCount - 1 }

/-- A successful settlement followed by the refilling `await next()`
(`src/index.ts`, lines 176–183), whose own failure falls into the catch
block. -/
def settleOk (cfg : Cfg T R E) (s : St R E) (index : Nat) (v : MapOut R) :
    St R E × List (Strand T R E) :=
  match doNext cfg (writeResult s index v) with
  | (s₂, .ok sp) => (s₂, spawnOf sp)
  | (s₂, .threw e) => catchBlock cfg s₂ e

/-- One runner-loop iteration's `await next()` with its `catch`
(`src/index.ts`, lines 214–220). -/
def driverNext (cfg : Cfg T R E) (s : St R E) (i : Nat) :
    St R E × List (Strand T R E) :=
  match doNext cfg s with
  | (s₁, .ok sp) => (s₁, spawnOf sp ++ [.driver (i + 1)])
  | (s₁, .threw e) => (rejectSt s₁ (.err e), [])

/-- Run one strand for one scheduling turn.  `checkFirst` selects the
variant: `false` is the TypeScript core (`src/index.ts`), whose detached
task awaits the element first and checks the `isResolved` guard after
that await, just before invoking the mapper; `true` is the plain
JavaScript variant, whose detached task checks the guard at its very top
— before the element await.  In the JavaScript variant that check runs
synchronously at spawn time (an async function body runs up to its first
`await` when called), inside the same `next()` continuation whose own
`isResolved` test and value pull just spawned the task, so at that moment
the guard is necessarily false; after the element await the mapper is
invoked unconditionally.  A `taskStart` strand is a spawned task parked
at its element await; when it is scheduled, the TypeScript variant
therefore re-checks `isResolved` while the JavaScript variant does not.

* `driver i`: one iteration of the runner loop (`src/index.ts`,
  lines 213–224): after the first iteration the loop stops on
  `isIterableDone || isRejected`; it stops when `i < concurrency` fails;
  otherwise it awaits `next()` and rejects and breaks if that throws.
* `taskStart`: the head of the detached task up to the mapper invocation.
* `taskAwait`: the settlement of the mapper's promise: on success stage the
  skipped index, write `result[index]`, decrement `resolvingCount` and pull
  the next item (running the catch block if that pull throws); on failure
  run the catch block. -/
def runStrand (checkFirst : Bool) (cfg : Cfg T R E) (s : St R E) :
    Strand T R E → St R E × List (Strand T R E)
  | .driver i =>
      if 0 < i ∧ (s.isIterableDone = true ∨ s.isRejected = true) then (s, [])
      else if (cfg.conc.ltGuard i) = false then (s, [])
      else driverNext cfg s i
  | .taskStart index t =>
      if checkFirst then
        ({ s with mapperCalls := s.mapperCalls ++ [index] },
         [.taskAwait index (cfg.mapper t index)])
      else
        if s.isResolved then (s, [])
        else ({ s with mapperCalls := s.mapperCalls ++ [index] },
              [.taskAwait index (cfg.mapper t index)])
  | .taskAwait index out =>
      match out with
      | .ok v => settleOk cfg s index v
      | .error e => catchBlock cfg s e

/-- One scheduling step: run the chosen strand and splice the strands it
leaves behind into its place. -/
def stepAt (checkFirst : Bool) (cfg : Cfg T R E) (s : St R E)
    (l₁ : List (Strand T R E)) (str : Strand T R E) (l₂ : List (Strand T R E)) :
    St R E × List (Strand T R E) :=
  let r := runStrand checkFirst cfg s str
  (r.1, l₁ ++ r.2 ++ l₂)

/-- The configurations reachable from the start of a validated `pMap`
call under an arbitrary scheduler. -/
inductive Reach (checkFirst : Bool) (cfg : Cfg T R E) :
    St R E × List (Strand T R E) → Prop where
  | init : Reach checkFirst cfg (initSt, [.driver 0])
  | step {s : St R E} {l₁ l₂ : List (Strand T R E)} {str : Strand T R E} :
      Reach checkFirst cfg (s, l₁ ++ str :: l₂) →
      Reach checkFirst cfg (stepAt checkFirst cfg s l₁ str l₂)

/-- Run the `k`-th ready strand (a concrete scheduler choice). -/
def pickStep (checkFirst : Bool) (cfg : Cfg T R E) (k : Nat)
    (p : St R E × List (Strand T R E)) : St R E × List (Strand T R E) :=
  match p.2.drop k with
  | [] => p
  | str :: l₂ => stepAt checkFirst cfg p.1 (p.2.take k) str l₂

/-- Run a whole concrete schedule, given as the list of strand positions
chosen at each step. -/
def runSched (checkFirst : Bool) (cfg : Cfg T R E) (ks : List Nat)
    (p : St R E × List (Strand T R E)) : St R E × List (Strand T R E) :=
  ks.foldl (fun q k => pickStep checkFirst cfg k q) p

/-! ## Input validation (`src/index.ts`, lines 38–47 and 64–92) -/

/-- A JavaScript number as used for the `concurrency` option: an
integer-valued finite number, `Number.POSITIVE_INFINITY`, or any other
value (`NaN`, a non-integer finite number, `-Infinity`); for the latter
the result of the comparison `concurrency >= 1` is carried explicitly. -/
inductive JsNumber where
  | int (i : Int)
  | posInf
  | other (geOne : Bool)
deriving DecidableEq, Repr

/-- `Number.isSafeInteger`. -/
def jsIsSafeInteger : JsNumber → Bool
  | .int i => decide (i.natAbs ≤ 2 ^ 53 - 1)
  | _ => false

/-- The comparison `concurrency >= 1`. -/
def jsGeOne : JsNumber → Bool
  | .int i => decide (1 ≤ i)
  | .posInf => true
  | .other geOne => geOne

/-- `assertConcurrency` (`src/index.ts`, lines 38–47). -/
def assertConcurrency (c : JsNumber) : Bool :=
  (jsIsSafeInteger c || c == JsNumber.posInf) && jsGeOne c

/-- What input validation can observe about the `iterable` argument:
whether `Symbol.asyncIterator` and `Symbol.iterator` are present. -/
structure RawIterable where
  isAsyncIterable : Bool
  isIterable : Bool
deriving DecidableEq, Repr

/-- The `PMapError` class of `src/index.ts` (an `Error` subclass carrying a
message). -/
structure PMapError where
  message : String
deriving DecidableEq, Repr

/-- The validation block of `pMap` (`src/index.ts`, lines 64–92): reject
a non-iterable input, a non-function mapper, and an invalid concurrency,
in that order.  A thrown `PMapError` is rethrown unchanged by the
surrounding `catch`, and throwing inside the promise executor rejects the
returned promise, so a validation failure is the rejection reason. -/
def validatePMap (input : RawIterable) (mapperIsFunction : Bool)
    (concurrency : JsNumber) : Option PMapError :=
  if !input.isAsyncIterable && !input.isIterable then
    some { message := "Expected 'input' to be an 'Iterable' or 'AsyncIterable'" }
  else if !mapperIsFunction then
    some { message := "Mapper function is required" }
  else if !(assertConcurrency concurrency) then
    some { message := "Expected 'concurrency' to be an integer from 1 and up or 'Infinity'" }
  else
    none

/-- The validated concurrency as used by the runner loop. -/
def concOf : JsNumber → Conc
  | .int i => .num i.toNat
  | .posInf => .inf
  | .other _ => .num 0

/-- The head of a `pMap` call: validation, then the scheduling machine.
On a validation failure the promise rejects with the `PMapError` and no
machine is ever created (in particular the mapper is never invoked). -/
def pMapStart (input : RawIterable) (mapperIsFunction : Bool) (concurrency : JsNumber)
    (source : List (PullItem T E)) (mapper : T → Nat → Except E (MapOut R))
    (stopOnError : Bool) : Except PMapError (Cfg T R E) :=
  match validatePMap input mapperIsFunction concurrency with
  | some e => .error e
  | none => .ok { source := source, mapper := mapper, conc := concOf concurrency,
                  stopOnError := stopOnError }

/-- The mapper has been invoked at least once in some execution of the
call described by the given arguments. -/
def pMapInvoked (checkFirst : Bool) (input : RawIterable) (mapperIsFunction : Bool)
    (concurrency : JsNumber) (source : List (PullItem T E))
    (mapper : T → Nat → Except E (MapOut R)) (stopOnError : Bool) : Prop :=
  ∃ cfg : Cfg T R E, ∃ s L,
    pMapStart input mapperIsFunction concurrency source mapper stopOnError = .ok cfg ∧
    Reach checkFirst cfg (s, L) ∧ s.mapperCalls ≠ []

/-- The concurrency values the claim calls invalid: `0`, a negative
integer, or a value that is neither an integer nor `Infinity`. -/
def claimInvalidConcurrency (c : JsNumber) : Prop :=
  c = .int 0 ∨ (∃ i : Int, c = .int i ∧ i < 0) ∨ (∃ b, c = .other b)

/-! ## Strings, `Error` values and `AggregateError`
(`src/aggregate-error.ts`)

JavaScript strings are embedded as `List Char`. -/

/-- A JavaScript string. -/
abbrev JStr := List Char

/-- A JavaScript `Error` value: `name`, `message`, and the host-defined
`stack` (ECMAScript does not guarantee a `stack` property; errors created
inside the model carry `none`, caller-supplied errors may carry one). -/
structure JsError where
  name : JStr
  message : JStr
  stack : Option JStr
deriving DecidableEq, Repr

/-- `new Error(m)`. -/
def newError (m : JStr) : JsError :=
  { name := "Error".data, message := m, stack := none }

/-- The `ErrorLike` type of `src/aggregate-error.ts`: an `Error`, a plain
object with a `message` property, or a string. -/
inductive ErrorLike where
  | err (e : JsError)
  | obj (message : JStr)
  | str (s : JStr)
deriving DecidableEq, Repr

/-- The message text of an `ErrorLike`. -/
def errorLikeMessage : ErrorLike → JStr
  | .err e => e.message
  | .obj m => m
  | .str s => s

/-- The normalization step of the `AggregateError` constructor
(`src/aggregate-error.ts`, lines 17–27): keep `Error`s, turn a plain
object into `Object.assign(new Error(error.message), error)` and a string
into `new Error(error)`. -/
def normalizeError : ErrorLike → JsError
  | .err e => e
  | .obj m => newError m
  | .str s => newError s

/-- `Error.prototype.toString` (`String(error)` for an `Error`). -/
def errorToString (e : JsError) : JStr :=
  if e.name.isEmpty then e.message
  else if e.message.isEmpty then e.name
  else e.name ++ (": ".data) ++ e.message

/-- `Array.prototype.join('\n')`. -/
def joinNL : List JStr → JStr
  | [] => []
  | [x] => x
  | x :: xs => x ++ '\n' :: joinNL xs

/-- Split a string at every `'\n'` (the line structure the `/gm` regexes of
`src/aggregate-error.ts` operate on). -/
def splitLines : JStr → List JStr
  | [] => [[]]
  | c :: cs =>
      if c = '\n' then [] :: splitLines cs
      else
        match splitLines cs with
        | [] => [[c]]
        | l :: ls => (c :: l) :: ls

/-- `indent.repeat(count)`. -/
def jsRepeat (s : JStr) (count : Nat) : JStr :=
  (List.replicate count s).flatten

/-- `pat` is a prefix of `s` (Boolean). -/
def jstrHasPrefix (pat s : JStr) : Bool :=
  match pat, s with
  | [], _ => true
  | _ :: _, [] => false
  | c :: cs, d :: ds => c == d && jstrHasPrefix cs ds

/-- `pat` occurs somewhere in `s` (Boolean). -/
def jstrHasInfix (pat : JStr) : JStr → Bool
  | [] => jstrHasPrefix pat []
  | d :: ds => jstrHasPrefix pat (d :: ds) || jstrHasInfix pat ds

/-- A line matched by `\s*$` — whitespace only. -/
def isBlankLine (l : JStr) : Bool :=
  l.all (fun c => c.isWhitespace)

/-- `indentString` (`src/aggregate-error.ts`, lines 67–81): prefix
`indent.repeat(count)` to the start of each line; when
`includeEmptyLines` is false (the regex `/^(?!\s*$)/gm`), whitespace-only
lines are left alone. -/
def indentString (s : JStr) (count : Nat) (indent : JStr)
    (includeEmptyLines : Bool) : JStr :=
  if count = 0 then s
  else
    joinNL ((splitLines s).map (fun line =>
      if includeEmptyLines || !isBlankLine line then jsRepeat indent count ++ line
      else line))

/-- `cleanInternalStack` (`src/aggregate-error.ts`, lines 53–55) removes
the frames of `aggregate-error` itself, i.e. the pieces of the stack
matching `/\s+at .*aggregate-error\/index.js:\d+:\d+\)?/g`.  The removal
is modelled line-wise; the fact the proofs rely on is exact: a stack with
no occurrence of the marker `aggregate-error/index.js:` contains no match
of the regex, so the replacement returns the string unchanged. -/
def cleanInternalStack (stack : JStr) : JStr :=
  if jstrHasInfix ("aggregate-error/index.js:".data) stack then
    joinNL ((splitLines stack).filter
      (fun line => !(jstrHasInfix ("aggregate-error/index.js:".data) line)))
  else stack

/-- One entry of the rendered message (`src/aggregate-error.ts`,
lines 30–34): the cleaned stack when the error has one, otherwise
`String(error)`. -/
def renderError (e : JsError) : JStr :=
  match e.stack with
  | some st => cleanInternalStack st
  | none => errorToString e

/-- The rendered message of `new AggregateError(errors)`
(`src/aggregate-error.ts`, lines 29–37): newline-join the rendered
normalized errors, indent by four spaces, and prefix a newline. -/
def aggregateMessage (errors : List ErrorLike) : JStr :=
  '\n' :: indentString (joinNL ((errors.map normalizeError).map renderError)) 4
    (" ".data) false

/-- A tiny heap of JavaScript arrays of errors, enough to express
aliasing: `slice()` allocates a fresh array, so mutating the copy returned
by `errors()` cannot change the aggregate's private `_errors` array. -/
abbrev Store := List (List JsError)

/-- Allocate a fresh array. -/
def Store.alloc (st : Store) (xs : List JsError) : Nat × Store :=
  (st.length, st ++ [xs])

/-- Read an array. -/
def Store.read (st : Store) (r : Nat) : List JsError :=
  (st.get? r).getD []

/-- Overwrite an array in place (a caller mutation). -/
def Store.write (st : Store) (r : Nat) (xs : List JsError) : Store :=
  st.set r xs

/-- An `AggregateError` object: the rendered message and a reference to
the private `_errors` array. -/
structure AggregateErrorObj where
  errorsRef : Nat
  message : JStr

/-- The `AggregateError` constructor (`src/aggregate-error.ts`,
lines 10–45): normalize the input failures in order, build the rendered
message, and store the normalized list as the private `_errors` array. -/
def mkAggregateError (es : List ErrorLike) (st : Store) : AggregateErrorObj × Store :=
  let a := st.alloc (es.map normalizeError)
  ({ errorsRef := a.1, message := aggregateMessage es }, a.2)

/-- The `errors()` accessor (`src/aggregate-error.ts`, lines 42–45):
return a copy of `_errors` (`this._errors.slice()`). -/
def errorsMethod (obj : AggregateErrorObj) (st : Store) : Nat × Store :=
  st.alloc (st.read obj.errorsRef)

/-- The strings `ts` occur, in this order, as disjoint substrings of `s`. -/
inductive AppearsInOrder : List JStr → JStr → Prop where
  | nil (s : JStr) : AppearsInOrder [] s
  | cons (pre t rest : JStr) (ts : List JStr) (h : AppearsInOrder ts rest) :
      AppearsInOrder (t :: ts) (pre ++ t ++ rest)

/-! ## Specification-side definitions and measures -/

/-- A strand that is a detached task (spawned for a pulled element). -/
def Strand.isTask : Strand T R E → Bool
  | .driver _ => false
  | .taskStart _ _ => true
  | .taskAwait _ _ => true

/-- A strand whose mapper invocation is in flight (invoked, not settled). -/
def Strand.isAwait : Strand T R E → Bool
  | .taskAwait _ _ => true
  | _ => false

/-- The index of a task strand. -/
def Strand.taskIndex? : Strand T R E → Option Nat
  | .driver _ => none
  | .taskStart i _ => some i
  | .taskAwait i _ => some i

/-- Number of detached tasks among the pending strands. -/
def countTasks (L : List (Strand T R E)) : Nat :=
  L.countP Strand.isTask

/-- Indices of the detached tasks among the pending strands. -/
def taskIndices (L : List (Strand T R E)) : List Nat :=
  L.filterMap Strand.taskIndex?

/-- `map` with the element index, starting at `k`. -/
def mapWithIndex (f : T → Nat → β) : List T → Nat → List β
  | [], _ => []
  | t :: ts, i => f t i :: mapWithIndex f ts (i + 1)

/-- Remove the `pMapSkip` results. -/
def removeSkips : List (MapOut R) → List (MapOut R)
  | [] => []
  | .skip :: vs => removeSkips vs
  | .val r :: vs => .val r :: removeSkips vs

/-- The sequence the spec promises on the success path: the mapper applied
to each source element in source order, with the `pMapSkip` positions
removed and the relative order preserved. -/
def specList (src : List T) (f : T → Nat → MapOut R) : List (MapOut R) :=
  removeSkips (mapWithIndex f src 0)

/-- A `pMap` call on which neither pulls nor mapper invocations fail: the
source yields the elements of `src` and the mapper totally computes
`f`. -/
def successCfg (E : Type) (src : List T) (f : T → Nat → MapOut R) (conc : Conc)
    (stop : Bool) : Cfg T R E :=
  { source := src.map .val
    mapper := fun t i => .ok (f t i)
    conc := conc
    stopOnError := stop }

/-- The potential of a strand toward future task creation, used for the
concurrency-window bound: the runner loop at iteration `i` can still start
`c - i` tasks, and each existing task refills at most its own slot. -/
def strandPot (c : Nat) : Strand T R E → Nat
  | .driver i => c - i
  | .taskStart _ _ => 1
  | .taskAwait _ _ => 1

/-- Total potential of the pending strands. -/
def potSum (c : Nat) (L : List (Strand T R E)) : Nat :=
  (L.map (strandPot c)).sum

/-! ## Concrete instances used by counterexamples and witnesses -/

/-- The start configuration of every run: the initial state with the
runner loop about to begin. -/
def initPair : St R E × List (Strand T R E) :=
  (initSt, [.driver 0])

/-- Two-element source whose first mapper invocation fails, second
succeeds; `concurrency = 2`, `stopOnError = true`. -/
def exCfgGuard : Cfg Nat Nat Nat :=
  { source := [.val 10, .val 20]
    mapper := fun _ i => if i = 0 then .error 99 else .ok (.val 7)
    conc := .num 2
    stopOnError := true }

/-- A source whose very first pull throws; `stopOnError = false`. -/
def exCfgFirstPull : Cfg Nat Nat Nat :=
  { source := [.err 7]
    mapper := fun t _ => .ok (.val t)
    conc := .num 1
    stopOnError := false }

/-- A source that throws on its second pull, under a mapper that always
fails; `stopOnError = false`. -/
def exCfgPullAfter : Cfg Nat Nat Nat :=
  { source := [.val 1, .err 42]
    mapper := fun _ _ => .error 5
    conc := .num 1
    stopOnError := false }

/-- A failure-free concrete call. -/
def exCfgSuccess : Cfg Nat Nat Nat :=
  successCfg Nat [5, 6] (fun t i => .val (t + i)) (.num 2) true

/-- A failure-free concrete call in which the middle element is skipped. -/
def exCfgSkip : Cfg Nat Nat Nat :=
  successCfg Nat [1, 2, 3] (fun t i => if t = 2 then .skip else .val (t * 10 + i))
    .inf true

/-- Two mapper failures under `stopOnError = false`. -/
def exCfgAgg : Cfg Nat Nat ErrorLike :=
  { source := [.val 1, .val 2]
    mapper := fun t _ => .error (.str (if t = 1 then "foo".data else "bar".data))
    conc := .num 1
    stopOnError := false }

/-- A source whose third pull throws after two good elements, under a
total mapper and `concurrency = 2`, `stopOnError = false`: the failing
pull lands in a settling task's refill `await next()`, so its failure
falls into that task's catch block and is logged like a mapper failure. -/
def exCfgRefill : Cfg Nat Nat Nat :=
  { source := [.val 1, .val 2, .err 9, .val 3]
    mapper := fun t _ => .ok (.val t)
    conc := .num 2
    stopOnError := false }

/-- The invariant of the success path, for the configuration
`successCfg E src f conc stop`: no failures have been observed, indices
are assigned in pull order, every pending task corresponds to exactly one
unwritten pulled index, writes hold the mapper's results,
`skippedIndexesMap` holds exactly the indices whose result is the
sentinel, `resolvingCount` counts the pending tasks, the `result` length
is bounded by the pulled prefix, and any settlement of the promise is a
resolution with the spec sequence. -/
structure SuccessInv (src : List T) (f : T → Nat → MapOut R)
    (s : St R E) (L : List (Strand T R E)) : Prop where
  errs : s.errors = []
  nrej : s.isRejected = false
  idx_pulled : s.currentIndex = s.pulled
  done_iff : s.isIterableDone = decide (src.length < s.pulled)
  start_ok : ∀ i t, Strand.taskStart i t ∈ L →
    src.get? i = some t ∧ s.result i = none ∧ i < s.pulled
  await_ok : ∀ i out, Strand.taskAwait i out ∈ L →
    ∃ t, src.get? i = some t ∧ out = Except.ok (f t i) ∧ s.result i = none ∧ i < s.pulled
  idx_nodup : (taskIndices L).Nodup
  cover : ∀ i, i < s.pulled → i < src.length → s.result i = none → i ∈ taskIndices L
  res_ok : ∀ i v, s.result i = some v →
    (∃ t, src.get? i = some t ∧ v = f t i) ∧ i < s.pulled
  skip_iff : ∀ i, i ∈ s.skipped ↔ s.result i = some MapOut.skip
  out_res : s.outcome = none ↔ s.isResolved = false
  resolved_tasks : s.isResolved = true → countTasks L = 0 ∧ src.length < s.pulled
  rc_count : s.resolvingCount = (countTasks L : Int)
  len_ub1 : s.resultLen ≤ s.pulled
  len_ub2 : s.resultLen ≤ src.length
  len_lb : ∀ i, s.result i ≠ none → i < s.resultLen
  out_sound : ∀ o, s.outcome = some o →
    o = Outcome.resolved ((specList src f).map some)

/-- No newline occurs in the string. -/
def noNL (s : JStr) : Bool :=
  !(s.any (fun c => c == '\n'))

/-- A failure whose normalized rendering is a single line: a string or a
plain object (their `new Error` carries no stack), or an `Error` value
with no `stack` and no newline in its `name` or `message`. -/
def plainError : ErrorLike → Bool
  | .err e => e.stack.isNone && noNL e.name && noNL e.message
  | .obj m => noNL m
  | .str s => noNL s

/-- The invariant of a `stopOnError = false` call on a source whose pulls
never fail: `resolvingCount` counts the pending detached tasks until the
promise settles, settlement flips exactly with `isResolved`, a settled
call has no pending task left, and any recorded rejection is the
aggregate of the entire nonempty error log (the log grows by appending at
failure-completion time, so the aggregated list holds every logged
failure in completion order, and it no longer grows after settlement),
recorded only once the source was exhausted. -/
structure AggInv (s : St R E) (L : List (Strand T R E)) : Prop where
  rc : s.isResolved = false → s.resolvingCount = (countTasks L : Int)
  out_res : s.outcome = none ↔ s.isResolved = false
  res_tasks : s.isResolved = true → countTasks L = 0
  rej : ∀ r, s.outcome = some (Outcome.rejected r) →
    r = Reason.aggregate s.errors ∧ s.errors ≠ [] ∧ s.isIterableDone = true

/-- The invariant of a `stopOnError = true` call: nothing is ever logged
into the composite error list, and any recorded rejection carries a single
direct failure (`Reason.err`), never an aggregate. -/
def StopInv (s : St R E) : Prop :=
  s.errors = [] ∧
  ∀ r, s.outcome = some (Outcome.rejected r) → ∃ e, r = Reason.err e

/-! # Theorems -/

/-! ## Generic facts about the machine -/

/-- The runner loop is shared text between the two cores, so a driver
strand steps identically in both variants. -/
theorem runStrand_driver_variant (cf : Bool) (cfg : Cfg T R E) (s : St R E)
    (i : Nat) :
    runStrand cf cfg s (.driver i) = runStrand false cfg s (.driver i) := by
  cases cf <;> rfl

/-- The settlement of an in-flight mapper invocation is shared text
between the two cores, so a `taskAwait` strand steps identically in both
variants. -/
theorem runStrand_taskAwait_variant (cf : Bool) (cfg : Cfg T R E) (s : St R E)
    (index : Nat) (out : Except E (MapOut R)) :
    runStrand cf cfg s (.taskAwait index out)
      = runStrand false cfg s (.taskAwait index out) := by
  cases cf <;> rfl

/-- Equation lemma: a runner-loop strand. -/
theorem runStrand_driver (cf : Bool) (cfg : Cfg T R E) (s : St R E) (i : Nat) :
    runStrand cf cfg s (.driver i) =
      if 0 < i ∧ (s.isIterableDone = true ∨ s.isRejected = true) then (s, [])
      else if (cfg.conc.ltGuard i) = false then (s, [])
      else driverNext cfg s i := by
  cases cf <;> rfl

/-- Equation lemma: a task head.  Only the TypeScript variant
(`cf = false`) re-checks the `isResolved` guard when the parked task is
scheduled; the JavaScript variant checked it before parking at the
element await and proceeds to the mapper unconditionally. -/
theorem runStrand_taskStart (cf : Bool) (cfg : Cfg T R E) (s : St R E)
    (index : Nat) (t : T) :
    runStrand cf cfg s (.taskStart index t) =
      if cf = false ∧ s.isResolved = true then (s, [])
      else ({ s with mapperCalls := s.mapperCalls ++ [index] },
            [.taskAwait index (cfg.mapper t index)]) := by
  cases cf with
  | false =>
      by_cases h : s.isResolved = true
      · show (if s.isResolved then (s, []) else _) = _
        rw [if_pos h, if_pos ⟨rfl, h⟩]
      · show (if s.isResolved then (s, []) else _) = _
        rw [if_neg h, if_neg (fun hc => h hc.2)]
  | true =>
      show _ = if (true = false ∧ s.isResolved = true) then (s, []) else _
      rw [if_neg (fun hc => Bool.noConfusion hc.1)]
      rfl

/-- Equation lemma: a successful settlement. -/
theorem runStrand_taskAwait_ok (cf : Bool) (cfg : Cfg T R E) (s : St R E)
    (index : Nat) (v : MapOut R) :
    runStrand cf cfg s (.taskAwait index (.ok v)) = settleOk cfg s index v := by
  cases cf <;> rfl

/-- Equation lemma: a failing settlement. -/
theorem runStrand_taskAwait_error (cf : Bool) (cfg : Cfg T R E) (s : St R E)
    (index : Nat) (e : E) :
    runStrand cf cfg s (.taskAwait index (.error e)) = catchBlock cfg s e := by
  cases cf <;> rfl

/-- `next()` returns immediately once the call is resolved. -/
theorem doNext_of_resolved (cfg : Cfg T R E) (s : St R E)
    (h : s.isResolved = true) : doNext cfg s = (s, .ok none) := by
  unfold doNext
  rw [h]
  simp

/-- A throwing pull: the iterator advances, no index is assigned, and the
caller observes the thrown error. -/
theorem doNext_of_err (cfg : Cfg T R E) (s : St R E) (e : E)
    (hres : s.isResolved = false)
    (hpull : cfg.source.get? s.pulled = some (.err e)) :
    doNext cfg s = ({ s with pulled := s.pulled + 1 }, .threw e) := by
  unfold doNext
  rw [hres, hpull]
  simp

/-- A value pull: the iterator advances, the element is assigned the next
sequential index and `resolvingCount` grows. -/
theorem doNext_of_val (cfg : Cfg T R E) (s : St R E) (t : T)
    (hres : s.isResolved = false)
    (hpull : cfg.source.get? s.pulled = some (.val t)) :
    doNext cfg s =
      ({ s with pulled := s.pulled + 1, currentIndex := s.currentIndex + 1,
                resolvingCount := s.resolvingCount + 1 },
       .ok (some (s.currentIndex, t))) := by
  unfold doNext
  rw [hres, hpull]
  simp

/-- A pull past the end of the source runs the `done` branch. -/
theorem doNext_of_done (cfg : Cfg T R E) (s : St R E)
    (hres : s.isResolved = false) (hpull : cfg.source.get? s.pulled = none) :
    doNext cfg s = doneStep cfg s := by
  unfold doNext
  rw [hres, hpull]
  simp

/-- A concrete scheduler choice is a reachability step. -/
theorem reach_pick (cf : Bool) (cfg : Cfg T R E) (k : Nat)
    (p : St R E × List (Strand T R E)) (h : Reach cf cfg p) :
    Reach cf cfg (pickStep cf cfg k p) := by
  unfold pickStep
  split
  · exact h
  · next str l₂ hdrop =>
      have hsplit : p.2.take k ++ str :: l₂ = p.2 := by
        rw [← hdrop]; exact List.take_append_drop k p.2
      have h' : Reach cf cfg (p.1, p.2.take k ++ str :: l₂) := by
        rw [hsplit]; exact h
      exact Reach.step h'

/-- Running a concrete schedule stays within reachability. -/
theorem reach_runSched (cf : Bool) (cfg : Cfg T R E) (ks : List Nat)
    (p : St R E × List (Strand T R E)) (h : Reach cf cfg p) :
    Reach cf cfg (runSched cf cfg ks p) := by
  induction ks generalizing p with
  | nil => exact h
  | cons k ks ih => exact ih _ (reach_pick cf cfg k p h)

/-- Settling preserves an existing outcome. -/
theorem settleSt_outcome_mono (s : St R E) (o' o : Outcome R E)
    (h : s.outcome = some o) : (settleSt s o').outcome = some o := by
  simp [settleSt, h, Option.orElse]

/-- Rejecting preserves an existing outcome. -/
theorem rejectSt_outcome_mono (s : St R E) (r : Reason E) (o : Outcome R E)
    (h : s.outcome = some o) : (rejectSt s r).outcome = some o := by
  simp [rejectSt, settleSt, h, Option.orElse]

/-- The `done` branch never un-settles the promise. -/
theorem doneStep_outcome_mono (cfg : Cfg T R E) (s : St R E) (o : Outcome R E)
    (h : s.outcome = some o) : (doneStep cfg s).1.outcome = some o := by
  unfold doneStep
  dsimp only
  split
  · split
    · exact rejectSt_outcome_mono _ _ _ h
    · split <;> exact settleSt_outcome_mono _ _ _ h
  · exact h

/-- `doNext` never un-settles the promise. -/
theorem doNext_outcome_mono (cfg : Cfg T R E) (s : St R E) (o : Outcome R E)
    (h : s.outcome = some o) : (doNext cfg s).1.outcome = some o := by
  unfold doNext
  split
  · exact h
  · split
    · exact h
    · exact h
    · exact doneStep_outcome_mono cfg s o h

/-- The catch block never un-settles the promise. -/
theorem catchBlock_outcome_mono (cfg : Cfg T R E) (s : St R E) (e : E)
    (o : Outcome R E) (h : s.outcome = some o) :
    (catchBlock cfg s e).1.outcome = some o := by
  unfold catchBlock
  split
  · exact rejectSt_outcome_mono _ _ _ h
  · have hlog : (logError s e).outcome = some o := h
    have hdn := doNext_outcome_mono cfg (logError s e) o hlog
    rcases hdn2 : doNext cfg (logError s e) with ⟨s₂, sp | e₂⟩
    · rw [hdn2] at hdn; exact hdn
    · rw [hdn2] at hdn; exact rejectSt_outcome_mono _ _ _ hdn

/-- A scheduling step never un-settles the promise: once the `pMap`
promise is resolved or rejected, its outcome is final. -/
theorem runStrand_outcome_mono (cf : Bool) (cfg : Cfg T R E) (s : St R E)
    (str : Strand T R E) (o : Outcome R E) (h : s.outcome = some o) :
    (runStrand cf cfg s str).1.outcome = some o := by
  cases str with
  | driver i =>
      rw [runStrand_driver]
      split
      · exact h
      · split
        · exact h
        · unfold driverNext
          have hdn := doNext_outcome_mono cfg s o h
          rcases hdn2 : doNext cfg s with ⟨s₁, sp | e⟩
          · rw [hdn2] at hdn; exact hdn
          · rw [hdn2] at hdn; exact rejectSt_outcome_mono _ _ _ hdn
  | taskStart i t =>
      rw [runStrand_taskStart]
      split
      · exact h
      · exact h
  | taskAwait i out =>
      cases out with
      | ok v =>
          rw [runStrand_taskAwait_ok]
          unfold settleOk
          have hw : (writeResult s i v).outcome = some o := h
          have hdn := doNext_outcome_mono cfg (writeResult s i v) o hw
          rcases hdn2 : doNext cfg (writeResult s i v) with ⟨s₂, sp | e⟩
          · rw [hdn2] at hdn; exact hdn
          · rw [hdn2] at hdn; exact catchBlock_outcome_mono cfg s₂ e o hdn
      | error e =>
          rw [runStrand_taskAwait_error]
          exact catchBlock_outcome_mono cfg s e o h

/-! ## List bookkeeping for strands -/

theorem countTasks_append (a b : List (Strand T R E)) :
    countTasks (a ++ b) = countTasks a + countTasks b :=
  List.countP_append _ _ _

theorem taskIndices_append (a b : List (Strand T R E)) :
    taskIndices (a ++ b) = taskIndices a ++ taskIndices b :=
  List.filterMap_append _ _ _

theorem countTasks_middle (l₁ l₂ : List (Strand T R E)) (str : Strand T R E)
    (h : str.isTask = true) :
    countTasks (l₁ ++ str :: l₂) = countTasks l₁ + countTasks l₂ + 1 := by
  simp [countTasks, List.countP_append, List.countP_cons, h]
  omega

theorem taskIndices_middle (l₁ l₂ : List (Strand T R E)) (str : Strand T R E)
    (i : Nat) (h : str.taskIndex? = some i) :
    taskIndices (l₁ ++ str :: l₂) = taskIndices l₁ ++ i :: taskIndices l₂ := by
  simp [taskIndices, List.filterMap_append, List.filterMap_cons, h]

/-- The source of a success configuration never throws and yields exactly
the elements of `src`. -/
theorem successCfg_pull (src : List T) (f : T → Nat → MapOut R) (conc : Conc)
    (stop : Bool) (p : Nat) :
    (successCfg E src f conc stop).source.get? p = (src.get? p).map .val := by
  simp [successCfg, List.get?_eq_getElem?]

/-! ## Preservation of the success invariant -/

/-- A task in the strand list forces a positive task count. -/
theorem countTasks_pos_of_mem (l₁ l₂ : List (Strand T R E))
    (str : Strand T R E) (h : str.isTask = true) :
    countTasks (l₁ ++ str :: l₂) ≠ 0 := by
  rw [countTasks_middle l₁ l₂ str h]
  omega

/-- Splitting membership after the scheduled strand was replaced. -/
theorem mem_replace_middle (x : Strand T R E)
    (l₁ l₂ new : List (Strand T R E)) (hx : x ∈ l₁ ++ new ++ l₂) :
    x ∈ new ∨ (x ∈ l₁ ∨ x ∈ l₂) := by
  simp only [List.mem_append] at hx
  tauto

/-- Membership transport into the old list from the side lists. -/
theorem mem_old_of_sides (x str : Strand T R E) (l₁ l₂ : List (Strand T R E))
    (hx : x ∈ l₁ ∨ x ∈ l₂) : x ∈ l₁ ++ str :: l₂ := by
  simp only [List.mem_append, List.mem_cons]
  tauto

/-- Membership transport through a middle list. -/
theorem mem_append3_of_sides (x : Strand T R E) (l₁ l₂ d : List (Strand T R E))
    (hx : x ∈ l₁ ∨ x ∈ l₂) : x ∈ l₁ ++ d ++ l₂ := by
  simp only [List.mem_append]
  tauto

/-- Preservation: running a task head.  The `isResolved` guard cannot be
set while a task strand is pending, so the head invokes the mapper and
turns into an in-flight settlement for the same index. -/
theorem successInv_taskStart (cf : Bool) (src : List T) (f : T → Nat → MapOut R)
    (conc : Conc) (stop : Bool) (s : St R E)
    (l₁ l₂ : List (Strand T R E)) (i : Nat) (t : T)
    (inv : SuccessInv src f s (l₁ ++ .taskStart i t :: l₂)) :
    SuccessInv src f
      (runStrand cf (successCfg E src f conc stop) s (.taskStart i t)).1
      (l₁ ++ (runStrand cf (successCfg E src f conc stop) s
        (.taskStart i t)).2 ++ l₂) := by
  by_cases hres : s.isResolved = true
  · exfalso
    exact countTasks_pos_of_mem l₁ l₂ (Strand.taskStart i t) rfl
      (inv.resolved_tasks hres).1
  · rw [runStrand_taskStart, if_neg (fun hc => hres hc.2)]
    have hres' : s.isResolved = false := by
      simpa using hres
    obtain ⟨hst, hres_i, hlt⟩ := inv.start_ok i t (by simp)
    have hmap : (successCfg E src f conc stop).mapper t i = Except.ok (f t i) := rfl
    rw [hmap]
    have hidx : taskIndices (l₁ ++ [Strand.taskAwait i (Except.ok (f t i))] ++ l₂)
        = taskIndices (l₁ ++ Strand.taskStart i t :: l₂) := by
      rw [taskIndices_middle l₁ l₂ (Strand.taskStart i t) i rfl,
        taskIndices_append, taskIndices_append]
      simp [taskIndices, List.filterMap_cons, Strand.taskIndex?]
    have hcnt : countTasks (l₁ ++ [Strand.taskAwait i (Except.ok (f t i))] ++ l₂)
        = countTasks (l₁ ++ Strand.taskStart i t :: l₂) := by
      rw [countTasks_middle l₁ l₂ (Strand.taskStart i t) rfl,
        countTasks_append, countTasks_append]
      simp [countTasks, List.countP_cons, Strand.isTask]
      omega
    refine ⟨?_, ?_, ?_, ?_, ?_, ?_, ?_, ?_, ?_, ?_, ?_, ?_, ?_, ?_, ?_, ?_, ?_⟩
    · exact inv.errs
    · exact inv.nrej
    · exact inv.idx_pulled
    · exact inv.done_iff
    · intro j u hj
      rcases mem_replace_middle (Strand.taskStart j u)
          l₁ l₂ _ hj with hj | hj
      · exact absurd (List.mem_singleton.1 hj) (by simp)
      · exact inv.start_ok j u (mem_old_of_sides _ _ l₁ l₂ hj)
    · intro j out hj
      rcases mem_replace_middle (Strand.taskAwait j out)
          l₁ l₂ _ hj with hj | hj
      · have hj' := List.mem_singleton.1 hj
        cases hj'
        exact ⟨t, hst, rfl, hres_i, hlt⟩
      · exact inv.await_ok j out (mem_old_of_sides _ _ l₁ l₂ hj)
    · exact hidx ▸ inv.idx_nodup
    · intro j hj1 hj2 hj3
      exact hidx ▸ inv.cover j hj1 hj2 hj3
    · exact inv.res_ok
    · exact inv.skip_iff
    · exact inv.out_res
    · intro h
      exact absurd h hres
    · exact hcnt ▸ inv.rc_count
    · exact inv.len_ub1
    · exact inv.len_ub2
    · exact inv.len_lb
    · exact inv.out_sound

/-- Every pending task's index was assigned at a pull, so it is below the
pull counter. -/
theorem successInv_indices_lt (src : List T) (f : T → Nat → MapOut R)
    (s : St R E) (L : List (Strand T R E)) (inv : SuccessInv src f s L)
    (j : Nat) (hj : j ∈ taskIndices L) : j < s.pulled := by
  rcases List.mem_filterMap.1 hj with ⟨x, hxL, hx⟩
  cases x with
  | driver _ => cases hx
  | taskStart k t =>
      cases hx
      exact (inv.start_ok _ t hxL).2.2
  | taskAwait k out =>
      cases hx
      obtain ⟨t, -, -, -, h⟩ := inv.await_ok _ out hxL
      exact h

/-- Pending-task indices never reach the length of the source. -/
theorem successInv_indices_lt_len (src : List T) (f : T → Nat → MapOut R)
    (s : St R E) (L : List (Strand T R E)) (inv : SuccessInv src f s L)
    (j : Nat) (hj : j ∈ taskIndices L) : j < src.length := by
  rcases List.mem_filterMap.1 hj with ⟨x, hxL, hx⟩
  cases x with
  | driver _ => cases hx
  | taskStart k t =>
      cases hx
      rcases List.get?_eq_some.1 (inv.start_ok _ t hxL).1 with ⟨h, -⟩
      exact h
  | taskAwait k out =>
      cases hx
      obtain ⟨t, ht, -, -, -⟩ := inv.await_ok _ out hxL
      rcases List.get?_eq_some.1 ht with ⟨h, -⟩
      exact h

theorem taskIndices_middle_none (l₁ l₂ : List (Strand T R E))
    (str : Strand T R E) (h : str.taskIndex? = none) :
    taskIndices (l₁ ++ str :: l₂) = taskIndices l₁ ++ taskIndices l₂ := by
  simp [taskIndices, List.filterMap_append, List.filterMap_cons, h]

theorem countTasks_middle_zero (l₁ l₂ : List (Strand T R E))
    (str : Strand T R E) (h : str.isTask = false) :
    countTasks (l₁ ++ str :: l₂) = countTasks l₁ + countTasks l₂ := by
  simp [countTasks, List.countP_append, List.countP_cons, h]

/-- Replacing a runner-loop strand by other non-task strands (the loop
continuing, or nothing) changes no invariant-relevant data. -/
theorem successInv_swap_driver (src : List T) (f : T → Nat → MapOut R)
    (s : St R E) (l₁ l₂ d : List (Strand T R E)) (i : Nat)
    (inv : SuccessInv src f s (l₁ ++ .driver i :: l₂))
    (hd : ∀ x ∈ d, x.isTask = false ∧ x.taskIndex? = none) :
    SuccessInv src f s (l₁ ++ d ++ l₂) := by
  have hidxd : taskIndices d = [] :=
    List.filterMap_eq_nil_iff.2 (fun x hx => (hd x hx).2)
  have hcntd : countTasks d = 0 :=
    List.countP_eq_zero.2 (fun x hx => by simp [(hd x hx).1])
  have hidx : taskIndices (l₁ ++ d ++ l₂)
      = taskIndices (l₁ ++ Strand.driver i :: l₂) := by
    rw [taskIndices_middle_none l₁ l₂ (Strand.driver i) rfl,
      taskIndices_append, taskIndices_append, hidxd]
    simp
  have hcnt : countTasks (l₁ ++ d ++ l₂)
      = countTasks (l₁ ++ Strand.driver i :: l₂) := by
    rw [countTasks_middle_zero l₁ l₂ (Strand.driver i) rfl,
      countTasks_append, countTasks_append, hcntd]
    omega
  have hnotask : ∀ x ∈ d, x.isTask = false := fun x hx => (hd x hx).1
  refine ⟨inv.errs, inv.nrej, inv.idx_pulled, inv.done_iff, ?_, ?_, ?_, ?_,
    inv.res_ok, inv.skip_iff, inv.out_res, ?_, ?_, inv.len_ub1, inv.len_ub2,
    inv.len_lb, inv.out_sound⟩
  · intro j u hj
    rcases mem_replace_middle (Strand.taskStart j u)
        l₁ l₂ d hj with hj | hj
    · exact absurd (hnotask _ hj) (by simp [Strand.isTask])
    · exact inv.start_ok j u (mem_old_of_sides _ _ l₁ l₂ hj)
  · intro j out hj
    rcases mem_replace_middle (Strand.taskAwait j out)
        l₁ l₂ d hj with hj | hj
    · exact absurd (hnotask _ hj) (by simp [Strand.isTask])
    · exact inv.await_ok j out (mem_old_of_sides _ _ l₁ l₂ hj)
  · exact hidx ▸ inv.idx_nodup
  · intro j hj1 hj2 hj3
    exact hidx ▸ inv.cover j hj1 hj2 hj3
  · intro h
    exact ⟨hcnt ▸ (inv.resolved_tasks h).1, (inv.resolved_tasks h).2⟩
  · exact hcnt ▸ inv.rc_count

/-- Preservation: the write-back of a successful settlement.  The settled
task's slot becomes the mapper's value, its index is staged as skipped
exactly when the value is the sentinel, and the task leaves the strand
list. -/
theorem successInv_write (src : List T) (f : T → Nat → MapOut R)
    (s : St R E) (l₁ l₂ : List (Strand T R E)) (i : Nat) (v : MapOut R)
    (inv : SuccessInv src f s (l₁ ++ Strand.taskAwait i (Except.ok v) :: l₂)) :
    SuccessInv src f (writeResult s i v)
      (l₁ ++ ([] : List (Strand T R E)) ++ l₂) := by
  obtain ⟨t, hti, hv, hresi, hlt⟩ := inv.await_ok i (Except.ok v) (by simp)
  have hv' : v = f t i := by
    injection hv
  have hres : s.isResolved = false := by
    by_cases h : s.isResolved = true
    · exact absurd (inv.resolved_tasks h).1
        (countTasks_pos_of_mem l₁ l₂ (Strand.taskAwait i (Except.ok v)) rfl)
    · simpa using h
  have hiltn : i < src.length := by
    rcases List.get?_eq_some.1 hti with ⟨h, -⟩
    exact h
  have hnotmem : i ∉ s.skipped := fun hmem => by
    rw [(inv.skip_iff i).1 hmem] at hresi
    cases hresi
  have hidxold : taskIndices (l₁ ++ Strand.taskAwait i (Except.ok v) :: l₂)
      = taskIndices l₁ ++ i :: taskIndices l₂ :=
    taskIndices_middle l₁ l₂ (Strand.taskAwait i (Except.ok v)) i rfl
  have hnodup := inv.idx_nodup
  rw [hidxold] at hnodup
  have hnodup2 := List.nodup_cons.1 (List.nodup_middle.1 hnodup)
  have hinot : i ∉ taskIndices l₁ ++ taskIndices l₂ := hnodup2.1
  have hidxnew : taskIndices (l₁ ++ ([] : List (Strand T R E)) ++ l₂)
      = taskIndices l₁ ++ taskIndices l₂ := by
    rw [taskIndices_append, taskIndices_append]
    simp [taskIndices]
  have hcntold : countTasks (l₁ ++ Strand.taskAwait i (Except.ok v) :: l₂)
      = countTasks l₁ + countTasks l₂ + 1 :=
    countTasks_middle l₁ l₂ (Strand.taskAwait i (Except.ok v)) rfl
  have hcntnew : countTasks (l₁ ++ ([] : List (Strand T R E)) ++ l₂)
      = countTasks l₁ + countTasks l₂ := by
    rw [countTasks_append, countTasks_append]
    rfl
  have hresult : ∀ j, (writeResult s i v).result j
      = if j = i then some v else s.result j := fun _ => rfl
  have hne_of_mem : ∀ j, j ∈ taskIndices l₁ ++ taskIndices l₂ → j ≠ i :=
    fun j hj hji => hinot (hji ▸ hj)
  have hmem_old : ∀ j, j ∈ taskIndices l₁ ++ taskIndices l₂ →
      j ∈ taskIndices (l₁ ++ Strand.taskAwait i (Except.ok v) :: l₂) := by
    intro j hj
    rw [hidxold]
    simp only [List.mem_append, List.mem_cons] at hj ⊢
    tauto
  refine ⟨inv.errs, inv.nrej, inv.idx_pulled, inv.done_iff, ?_, ?_, ?_, ?_,
    ?_, ?_, inv.out_res, ?_, ?_, ?_, ?_, ?_, inv.out_sound⟩
  · intro j u hj
    rcases mem_replace_middle (Strand.taskStart j u) l₁ l₂ [] hj with hj | hj
    · cases hj
    · have hjmem : j ∈ taskIndices l₁ ++ taskIndices l₂ := by
        rcases hj with h | h
        · exact List.mem_append.2 (Or.inl (List.mem_filterMap.2 ⟨_, h, rfl⟩))
        · exact List.mem_append.2 (Or.inr (List.mem_filterMap.2 ⟨_, h, rfl⟩))
      have hji : j ≠ i := hne_of_mem j hjmem
      obtain ⟨h1, h2, h3⟩ := inv.start_ok j u (mem_old_of_sides _ _ l₁ l₂ hj)
      rw [hresult, if_neg hji]
      exact ⟨h1, h2, h3⟩
  · intro j out hj
    rcases mem_replace_middle (Strand.taskAwait j out) l₁ l₂ [] hj with hj | hj
    · cases hj
    · have hjmem : j ∈ taskIndices l₁ ++ taskIndices l₂ := by
        rcases hj with h | h
        · exact List.mem_append.2 (Or.inl (List.mem_filterMap.2 ⟨_, h, rfl⟩))
        · exact List.mem_append.2 (Or.inr (List.mem_filterMap.2 ⟨_, h, rfl⟩))
      have hji : j ≠ i := hne_of_mem j hjmem
      obtain ⟨u, h1, h2, h3, h4⟩ := inv.await_ok j out (mem_old_of_sides _ _ l₁ l₂ hj)
      refine ⟨u, h1, h2, ?_, h4⟩
      rw [hresult, if_neg hji]
      exact h3
  · rw [hidxnew]
    exact hnodup2.2
  · intro j hj1 hj2 hj3
    rw [hresult] at hj3
    by_cases hji : j = i
    · rw [if_pos hji] at hj3
      cases hj3
    · rw [if_neg hji] at hj3
      have := inv.cover j hj1 hj2 hj3
      rw [hidxold] at this
      rw [hidxnew]
      simp only [List.mem_append, List.mem_cons] at this ⊢
      rcases this with h | h | h
      · exact Or.inl h
      · exact absurd h hji
      · exact Or.inr h
  · intro j w hj
    rw [hresult] at hj
    by_cases hji : j = i
    · subst hji
      rw [if_pos rfl] at hj
      injection hj with hj
      exact ⟨⟨t, hti, hj ▸ hv'⟩, hlt⟩
    · rw [if_neg hji] at hj
      exact inv.res_ok j w hj
  · intro j
    rw [hresult]
    by_cases hji : j = i
    · subst hji
      rw [if_pos rfl]
      rcases hskip : v.isSkip with _ | _
      · have hvne : v ≠ MapOut.skip := by
          intro h
          rw [h] at hskip
          cases hskip
        constructor
        · intro hmem
          unfold writeResult at hmem
          rw [hskip] at hmem
          simp only [Bool.false_eq_true, if_false] at hmem
          exact absurd hmem hnotmem
        · intro hsome
          exact absurd (by injection hsome) hvne
      · have hvsk : v = MapOut.skip := by
          cases v
          · cases hskip
          · rfl
        have hcont : s.skipped.contains j = false := by
          rcases hc : s.skipped.contains j with _ | _
          · rfl
          · exact absurd (List.mem_of_elem_eq_true hc) hnotmem
        constructor
        · intro _
          rw [hvsk]
        · intro _
          unfold writeResult
          rw [hskip]
          simp only [if_true, hcont, Bool.false_eq_true, if_false]
          exact List.mem_cons_self j _
    · rw [if_neg hji]
      have hbase := inv.skip_iff j
      constructor
      · intro hmem
        unfold writeResult at hmem
        rcases hskip : v.isSkip with _ | _
        · rw [hskip] at hmem
          simp only [Bool.false_eq_true, if_false] at hmem
          exact hbase.1 hmem
        · rw [hskip] at hmem
          simp only [if_true] at hmem
          rcases hc : s.skipped.contains i with _ | _
          · rw [hc] at hmem
            simp only [Bool.false_eq_true, if_false] at hmem
            rcases List.mem_cons.1 hmem with h | h
            · exact absurd h hji
            · exact hbase.1 h
          · rw [hc] at hmem
            simp only [if_true] at hmem
            exact hbase.1 hmem
      · intro hsome
        have hmem := hbase.2 hsome
        unfold writeResult
        rcases hskip : v.isSkip with _ | _
        · simp only [hskip, Bool.false_eq_true, if_false]
          exact hmem
        · simp only [hskip, if_true]
          rcases hc : s.skipped.contains i with _ | _
          · simp only [hc, Bool.false_eq_true, if_false]
            exact List.mem_cons_of_mem _ hmem
          · simp only [hc, if_true]
            exact hmem
  · intro h
    rw [show (writeResult s i v).isResolved = s.isResolved from rfl, hres] at h
    cases h
  · have := inv.rc_count
    rw [hcntold] at this
    rw [hcntnew]
    show s.resolvingCount - 1 = _
    rw [this]
    push_cast
    ring
  · show max s.resultLen (i + 1) ≤ s.pulled
    have := inv.len_ub1
    omega
  · show max s.resultLen (i + 1) ≤ src.length
    have := inv.len_ub2
    omega
  · intro j hj
    rw [hresult] at hj
    show j < max s.resultLen (i + 1)
    by_cases hji : j = i
    · omega
    · rw [if_neg hji] at hj
      have := inv.len_lb j hj
      omega

/-- Preservation: a value pull.  The pulled element is assigned the next
sequential index — equal to the pull position on the success path — and a
fresh task strand is spawned for it. -/
theorem successInv_spawn (src : List T) (f : T → Nat → MapOut R)
    (s : St R E) (l₁ l₂ d : List (Strand T R E)) (t : T)
    (inv : SuccessInv src f s (l₁ ++ d ++ l₂))
    (hd : ∀ x ∈ d, x.isTask = false ∧ x.taskIndex? = none)
    (hres : s.isResolved = false)
    (hsrc : src.get? s.pulled = some t) :
    SuccessInv src f
      { s with pulled := s.pulled + 1, currentIndex := s.currentIndex + 1,
               resolvingCount := s.resolvingCount + 1 }
      (l₁ ++ (Strand.taskStart s.currentIndex t :: d) ++ l₂) := by
  have hci : s.currentIndex = s.pulled := inv.idx_pulled
  have hpn : s.pulled < src.length := by
    rcases List.get?_eq_some.1 hsrc with ⟨h, -⟩
    exact h
  have hresp : s.result s.pulled = none := by
    rcases hr : s.result s.pulled with _ | w
    · rfl
    · exact absurd (inv.res_ok s.pulled w hr).2 (by omega)
  have hidxd : taskIndices d = [] :=
    List.filterMap_eq_nil_iff.2 (fun x hx => (hd x hx).2)
  have hcntd : countTasks d = 0 :=
    List.countP_eq_zero.2 (fun x hx => by simp [(hd x hx).1])
  have hidxold : taskIndices (l₁ ++ d ++ l₂)
      = taskIndices l₁ ++ taskIndices l₂ := by
    rw [taskIndices_append, taskIndices_append, hidxd]
    simp
  have hcntold : countTasks (l₁ ++ d ++ l₂)
      = countTasks l₁ + countTasks l₂ := by
    rw [countTasks_append, countTasks_append, hcntd]
    omega
  have hidxmid : taskIndices (Strand.taskStart s.currentIndex t :: d)
      = [s.currentIndex] := by
    have : taskIndices (Strand.taskStart s.currentIndex t :: d)
        = s.currentIndex :: taskIndices d := rfl
    rw [this, hidxd]
  have hcntmid : countTasks (Strand.taskStart s.currentIndex t :: d) = 1 := by
    have : countTasks (Strand.taskStart s.currentIndex t :: d)
        = countTasks d + 1 := by
      simp [countTasks, List.countP_cons, Strand.isTask]
    rw [this, hcntd]
  have hidxnew : taskIndices (l₁ ++ (Strand.taskStart s.currentIndex t :: d) ++ l₂)
      = taskIndices l₁ ++ s.currentIndex :: taskIndices l₂ := by
    rw [taskIndices_append, taskIndices_append, hidxmid]
    simp
  have hcntnew : countTasks (l₁ ++ (Strand.taskStart s.currentIndex t :: d) ++ l₂)
      = countTasks l₁ + countTasks l₂ + 1 := by
    rw [countTasks_append, countTasks_append, hcntmid]
    omega
  have hindlt : ∀ j, j ∈ taskIndices l₁ ++ taskIndices l₂ → j < s.pulled := by
    intro j hj
    exact successInv_indices_lt src f s (l₁ ++ d ++ l₂) inv j (hidxold ▸ hj)
  refine ⟨inv.errs, inv.nrej, ?_, ?_, ?_, ?_, ?_, ?_, ?_, inv.skip_iff,
    inv.out_res, ?_, ?_, ?_, ?_, ?_, inv.out_sound⟩
  · show s.currentIndex + 1 = s.pulled + 1
    omega
  · show s.isIterableDone = decide (src.length < s.pulled + 1)
    rw [inv.done_iff]
    exact decide_eq_decide.2 (by omega)
  · intro j u hj
    rcases mem_replace_middle (Strand.taskStart j u) l₁ l₂ _ hj with hj | hj
    · rcases List.mem_cons.1 hj with hj | hj
      · cases hj
        refine ⟨hci ▸ hsrc, hci ▸ hresp, ?_⟩
        show s.currentIndex < s.pulled + 1
        omega
      · exact absurd ((hd _ hj).1) (by simp [Strand.isTask])
    · obtain ⟨h1, h2, h3⟩ := inv.start_ok j u (mem_append3_of_sides _ l₁ l₂ d hj)
      refine ⟨h1, h2, ?_⟩
      show j < s.pulled + 1
      omega
  · intro j out hj
    rcases mem_replace_middle (Strand.taskAwait j out) l₁ l₂ _ hj with hj | hj
    · rcases List.mem_cons.1 hj with hj | hj
      · cases hj
      · exact absurd ((hd _ hj).1) (by simp [Strand.isTask])
    · obtain ⟨u, h1, h2, h3, h4⟩ :=
        inv.await_ok j out (mem_append3_of_sides _ l₁ l₂ d hj)
      refine ⟨u, h1, h2, h3, ?_⟩
      show j < s.pulled + 1
      omega
  · rw [hidxnew]
    have hnd := inv.idx_nodup
    rw [hidxold] at hnd
    refine List.nodup_middle.2 (List.nodup_cons.2 ⟨?_, hnd⟩)
    intro hmem
    have := hindlt _ hmem
    omega
  · intro j hj1 hj2 hj3
    have hj1' : j < s.pulled + 1 := hj1
    rw [hidxnew]
    by_cases hjp : j = s.pulled
    · subst hjp
      simp [hci]
    · have hjlt : j < s.pulled := by omega
      have := inv.cover j hjlt hj2 hj3
      rw [hidxold] at this
      simp only [List.mem_append, List.mem_cons] at this ⊢
      tauto
  · intro j w hj
    obtain ⟨h1, h2⟩ := inv.res_ok j w hj
    refine ⟨h1, ?_⟩
    show j < s.pulled + 1
    omega
  · intro h
    exact absurd h (by simp [hres])
  · have h1 := inv.rc_count
    rw [hcntold] at h1
    show s.resolvingCount + 1 = _
    rw [hcntnew]
    omega
  · show s.resultLen ≤ s.pulled + 1
    have := inv.len_ub1
    omega
  · exact inv.len_ub2
  · exact inv.len_lb

/-! ## The value passed to `resolve` -/

theorem mapWithIndex_get? (f : T → Nat → β) (l : List T) (k j : Nat) :
    (mapWithIndex f l k).get? j = (l.get? j).map (fun t => f t (k + j)) := by
  induction l generalizing k j with
  | nil => simp [mapWithIndex]
  | cons t ts ih =>
      cases j with
      | zero => simp [mapWithIndex]
      | succ j =>
          have hk : k + 1 + j = k + (j + 1) := by omega
          show (mapWithIndex f ts (k + 1)).get? j = _
          rw [ih, hk]
          rfl

theorem countTasks_zero_iff (L : List (Strand T R E)) (h : countTasks L = 0) :
    taskIndices L = [] := by
  refine List.filterMap_eq_nil_iff.2 (fun x hx => ?_)
  have := List.countP_eq_zero.1 h x hx
  cases x with
  | driver i => rfl
  | taskStart i t => exact absurd rfl this
  | taskAwait i out => exact absurd rfl this

theorem countTasks_zero_no_task (L : List (Strand T R E))
    (h : countTasks L = 0) (x : Strand T R E) (hx : x ∈ L) :
    x.isTask = false := by
  have := List.countP_eq_zero.1 h x hx
  rcases hb : x.isTask with _ | _
  · rfl
  · exact absurd hb this

/-- Filtering out the staged indices and dropping the sentinel results
compute the same sequence. -/
theorem filter_map_eq_removeSkips (g : Nat → MapOut R) (P : Nat → Bool)
    (l : List Nat) (hP : ∀ j ∈ l, P j = !(g j).isSkip) :
    (l.filter P).map (fun j => some (g j)) = (removeSkips (l.map g)).map some := by
  induction l with
  | nil => rfl
  | cons j l ih =>
      have hPj := hP j (by simp)
      have hrest : ∀ x ∈ l, P x = !(g x).isSkip := fun x hx => hP x (by simp [hx])
      cases hg : g j with
      | skip =>
          rw [hg] at hPj
          simp only [MapOut.isSkip, Bool.not_true] at hPj
          simp [List.filter_cons, hPj, hg, removeSkips, ih hrest]
      | val r =>
          rw [hg] at hPj
          simp only [MapOut.isSkip, Bool.not_false] at hPj
          simp [List.filter_cons, hPj, hg, removeSkips, ih hrest]

/-- The array handed to `resolve` — compacted when skips were staged, raw
otherwise — is exactly the spec sequence. -/
theorem resolution_spec (src : List T) (f : T → Nat → MapOut R) (s : St R E)
    (hall : ∀ j, j < src.length →
      ∃ t, src.get? j = some t ∧ s.result j = some (f t j))
    (hlen : s.resultLen = src.length)
    (hskip : ∀ j, j ∈ s.skipped ↔ s.result j = some MapOut.skip) :
    pureResultList s = (specList src f).map some ∧
    (s.skipped.isEmpty = true → resolvedList s = (specList src f).map some) := by
  classical
  let g : Nat → MapOut R := fun j =>
    match s.result j with
    | some v => v
    | none => MapOut.skip
  have hg : ∀ j, j < src.length → s.result j = some (g j) := by
    intro j hj
    obtain ⟨t, -, hr⟩ := hall j hj
    have hgj : g j = f t j := by
      show (match s.result j with
        | some v => v
        | none => MapOut.skip) = f t j
      rw [hr]
    rw [hr, hgj]
  have hmap : (List.range src.length).map g = mapWithIndex f src 0 := by
    apply List.ext_get?
    intro j
    rw [List.get?_map, mapWithIndex_get?]
    by_cases hj : j < src.length
    · rw [List.get?_range hj]
      obtain ⟨t, ht, hr⟩ := hall j hj
      rw [ht]
      have : g j = f t j := by
        show (match s.result j with
          | some v => v
          | none => MapOut.skip) = f t j
        rw [hr]
      simp [this]
    · rw [List.get?_eq_none.2 (by simpa using hj),
        List.get?_eq_none.2 (by simpa using hj)]
      rfl
  have hP : ∀ j ∈ List.range src.length,
      (fun i => !(s.skipped.contains i)) j = !(g j).isSkip := by
    intro j hj
    have hjlt : j < src.length := List.mem_range.1 hj
    rcases hc : s.skipped.contains j with _ | _
    · have hnm : j ∉ s.skipped := fun hm => by
        have h2 : s.skipped.contains j = true := List.elem_eq_true_of_mem hm
        rw [hc] at h2
        cases h2
      have hns : s.result j ≠ some MapOut.skip := fun hm => hnm ((hskip j).2 hm)
      have hgns : g j ≠ MapOut.skip := by
        intro hgj
        apply hns
        rw [hg j hjlt, hgj]
      rcases hv : g j with r | _
      · show (!(s.skipped.contains j)) = (!(MapOut.val r).isSkip)
        rw [hc]
        rfl
      · exact absurd hv hgns
    · have hm : j ∈ s.skipped := List.mem_of_elem_eq_true hc
      have hr := (hskip j).1 hm
      have hgj : g j = MapOut.skip := by
        show (match s.result j with
          | some v => v
          | none => MapOut.skip) = MapOut.skip
        rw [hr]
      rw [hgj]
      show (!(s.skipped.contains j)) = (!(MapOut.skip : MapOut R).isSkip)
      rw [hc]
      rfl
  have hpure : pureResultList s = (specList src f).map some := by
    unfold pureResultList specList
    rw [hlen]
    have hcongr : ((List.range src.length).filter
        (fun i => !(s.skipped.contains i))).map s.result
        = ((List.range src.length).filter
            (fun i => !(s.skipped.contains i))).map (fun j => some (g j)) := by
      apply List.map_congr_left
      intro j hj
      have hjlt : j < src.length :=
        List.mem_range.1 (List.mem_of_mem_filter hj)
      exact hg j hjlt
    rw [hcongr, filter_map_eq_removeSkips g _ _ hP, hmap]
  refine ⟨hpure, fun hempty => ?_⟩
  have hskipnil : s.skipped = [] := List.isEmpty_iff.1 hempty
  have hfilter : (List.range src.length).filter
      (fun i => !(s.skipped.contains i)) = List.range src.length := by
    apply List.filter_eq_self.2
    intro j hj
    rw [hskipnil]
    rfl
  have : resolvedList s = pureResultList s := by
    unfold resolvedList pureResultList
    rw [hlen, hfilter]
  rw [this]
  exact hpure

/-- Settling a still-pending promise records the outcome. -/
theorem settleSt_outcome_of_none (s : St R E) (o : Outcome R E)
    (h : s.outcome = none) : (settleSt s o).outcome = some o := by
  simp [settleSt, h, Option.orElse]

/-- The `done` branch always returns normally to its caller. -/
theorem doneStep_snd (cfg : Cfg T R E) (s : St R E) :
    (doneStep cfg s).2 = NextRes.ok none := by
  unfold doneStep
  dsimp only
  split
  · split
    · rfl
    · split
      · rfl
      · rfl
  · rfl

/-- When the last pull observes `done` with an empty error log and no task
in flight, the `done` branch resolves the promise. -/
theorem doneStep_settles (cfg : Cfg T R E) (s : St R E)
    (hres : s.isResolved = false) (hrc : s.resolvingCount = 0)
    (herr : cfg.stopOnError = true ∨ s.errors = [])
    (hout : s.outcome = none) :
    ∃ xs, (doneStep cfg s).1.outcome = some (.resolved xs) := by
  unfold doneStep
  dsimp only
  rw [if_pos ⟨hrc, hres⟩]
  have hcond : ¬(cfg.stopOnError = false ∧ s.errors.isEmpty = false) := by
    rcases herr with h | h
    · rintro ⟨h1, -⟩
      rw [h] at h1
      cases h1
    · rintro ⟨-, h2⟩
      rw [h] at h2
      simp at h2
  rw [if_neg hcond]
  split
  · exact ⟨_, settleSt_outcome_of_none _ _ hout⟩
  · exact ⟨_, settleSt_outcome_of_none _ _ hout⟩

/-- Preservation: a pull past the end of the source.  The `done` branch
marks exhaustion; when no task is in flight it resolves — once — with the
spec sequence, and otherwise it leaves finalization to the last settling
task. -/
theorem successInv_doneStep (src : List T) (f : T → Nat → MapOut R)
    (conc : Conc) (stop : Bool) (s : St R E) (L : List (Strand T R E))
    (inv : SuccessInv src f s L) (hres : s.isResolved = false)
    (hpull : src.length ≤ s.pulled) :
    SuccessInv src f (doneStep (successCfg E src f conc stop) s).1 L ∧
    (doneStep (successCfg E src f conc stop) s).2 = NextRes.ok none := by
  unfold doneStep
  dsimp only
  by_cases hrc : s.resolvingCount = 0
  · rw [if_pos (by exact ⟨hrc, hres⟩)]
    have herr : (successCfg E src f conc stop).stopOnError = false ∧
        s.errors.isEmpty = false ↔ False := by
      constructor
      · rintro ⟨-, h⟩
        rw [inv.errs] at h
        cases h
      · intro h
        cases h
    rw [if_neg (fun h => herr.1 h)]
    have hcnt0 : countTasks L = 0 := by
      have := inv.rc_count
      rw [hrc] at this
      omega
    have hall : ∀ j, j < src.length →
        ∃ t, src.get? j = some t ∧ s.result j = some (f t j) := by
      intro j hj
      rcases hr : s.result j with _ | w
      · exfalso
        have hmem := inv.cover j (by omega) hj hr
        rw [countTasks_zero_iff L hcnt0] at hmem
        cases hmem
      · obtain ⟨⟨t, ht, hw⟩, -⟩ := inv.res_ok j w hr
        refine ⟨t, ht, ?_⟩
        rw [hw]
    have hlen : s.resultLen = src.length := by
      rcases Nat.eq_zero_or_pos src.length with hn | hn
      · have := inv.len_ub2
        omega
      · obtain ⟨t, -, hw⟩ := hall (src.length - 1) (by omega)
        have h1 := inv.len_lb (src.length - 1) (by rw [hw]; simp)
        have h2 := inv.len_ub2
        omega
    obtain ⟨hpure, hraw⟩ := resolution_spec src f s hall hlen inv.skip_iff
    have houtnone : s.outcome = none := inv.out_res.2 hres
    have hnostart : ∀ j u, Strand.taskStart j u ∈ L → False := by
      intro j u hj
      have := countTasks_zero_no_task L hcnt0 _ hj
      cases this
    have hnoawait : ∀ j out, Strand.taskAwait j out ∈ L → False := by
      intro j out hj
      have := countTasks_zero_no_task L hcnt0 _ hj
      cases this
    have hcore : ∀ xs, xs = (specList src f).map some →
        SuccessInv src f (settleSt { s with pulled := s.pulled + 1, currentIndex := s.currentIndex + 1, isIterableDone := true, isResolved := true } (Outcome.resolved xs)) L := by
      intro xs hxs
      refine ⟨inv.errs, inv.nrej, ?_, ?_, ?_, ?_, inv.idx_nodup, ?_, ?_,
        inv.skip_iff, ?_, ?_, ?_, ?_, inv.len_ub2, inv.len_lb, ?_⟩
      · show s.currentIndex + 1 = s.pulled + 1
        rw [inv.idx_pulled]
      · show true = decide (src.length < s.pulled + 1)
        symm
        simp only [decide_eq_true_eq]
        omega
      · intro j u hj
        exact absurd hj (fun h => hnostart j u h)
      · intro j out hj
        exact absurd hj (fun h => hnoawait j out h)
      · intro j hj1 hj2 hj3
        have hj1' : j < s.pulled + 1 := hj1
        exact inv.cover j (by omega) hj2 hj3
      · intro j w hj
        obtain ⟨h1, h2⟩ := inv.res_ok j w hj
        refine ⟨h1, ?_⟩
        show j < s.pulled + 1
        omega
      · show s.outcome.orElse _ = none ↔ true = false
        rw [houtnone]
        simp [Option.orElse]
      · intro _
        refine ⟨hcnt0, ?_⟩
        show src.length < s.pulled + 1
        omega
      · show s.resolvingCount = _
        rw [hrc, hcnt0]
        rfl
      · show s.resultLen ≤ s.pulled + 1
        have := inv.len_ub1
        omega
      · intro o ho
        have ho' : (Option.some (Outcome.resolved xs)) = some o := by
          rw [← ho]
          show _ = s.outcome.orElse _
          rw [houtnone]
          rfl
        injection ho' with ho'
        rw [← ho', hxs]
    split
    · next hskipped =>
        exact ⟨hcore _ (by
          show resolvedList s = _
          exact hraw hskipped), rfl⟩
    · next hskipped =>
        exact ⟨hcore _ (by
          show pureResultList s = _
          exact hpure), rfl⟩
  · rw [if_neg (fun h => hrc h.1)]
    refine ⟨⟨inv.errs, inv.nrej, ?_, ?_, ?_, ?_, inv.idx_nodup, ?_, ?_,
      inv.skip_iff, inv.out_res, ?_, inv.rc_count, ?_, inv.len_ub2,
      inv.len_lb, inv.out_sound⟩, rfl⟩
    · show s.currentIndex + 1 = s.pulled + 1
      rw [inv.idx_pulled]
    · show true = decide (src.length < s.pulled + 1)
      symm
      simp only [decide_eq_true_eq]
      omega
    · intro j u hj
      obtain ⟨h1, h2, h3⟩ := inv.start_ok j u hj
      refine ⟨h1, h2, ?_⟩
      show j < s.pulled + 1
      omega
    · intro j out hj
      obtain ⟨u, h1, h2, h3, h4⟩ := inv.await_ok j out hj
      refine ⟨u, h1, h2, h3, ?_⟩
      show j < s.pulled + 1
      omega
    · intro j hj1 hj2 hj3
      have hj1' : j < s.pulled + 1 := hj1
      exact inv.cover j (by omega) hj2 hj3
    · intro j w hj
      obtain ⟨h1, h2⟩ := inv.res_ok j w hj
      refine ⟨h1, ?_⟩
      show j < s.pulled + 1
      omega
    · intro h
      exact absurd h (by simp [hres])
    · show s.resultLen ≤ s.pulled + 1
      have := inv.len_ub1
      omega

/-- Preservation: one runner-loop iteration. -/
theorem successInv_driver (src : List T) (f : T → Nat → MapOut R)
    (conc : Conc) (stop : Bool) (s : St R E)
    (l₁ l₂ : List (Strand T R E)) (i : Nat)
    (inv : SuccessInv src f s (l₁ ++ .driver i :: l₂)) :
    SuccessInv src f
      (runStrand false (successCfg E src f conc stop) s (.driver i)).1
      (l₁ ++ (runStrand false (successCfg E src f conc stop) s
        (.driver i)).2 ++ l₂) := by
  have hdone : ∀ d : List (Strand T R E), (∀ x ∈ d, ∃ j, x = Strand.driver j) →
      ∀ x ∈ d, x.isTask = false ∧ x.taskIndex? = none := by
    rintro d hd x hx
    obtain ⟨j, rfl⟩ := hd x hx
    exact ⟨rfl, rfl⟩
  by_cases h1 : 0 < i ∧ (s.isIterableDone = true ∨ s.isRejected = true)
  · rw [runStrand_driver, if_pos h1]
    exact successInv_swap_driver src f s l₁ l₂ [] i inv (by simp)
  · by_cases h2 : ((successCfg E src f conc stop).conc.ltGuard i) = false
    · rw [runStrand_driver, if_neg h1, if_pos h2]
      exact successInv_swap_driver src f s l₁ l₂ [] i inv (by simp)
    · by_cases hres : s.isResolved = true
      · have heq : runStrand false (successCfg E src f conc stop) s (.driver i)
            = (s, [Strand.driver (i + 1)]) := by
          rw [runStrand_driver, if_neg h1, if_neg h2]
          unfold driverNext
          rw [doNext_of_resolved _ _ hres]
          rfl
        rw [heq]
        exact successInv_swap_driver src f s l₁ l₂ [Strand.driver (i + 1)] i inv
          (hdone _ (by simp))
      · have hres' : s.isResolved = false := by simpa using hres
        rcases hsrc : src.get? s.pulled with _ | t
        · have hpull : (successCfg E src f conc stop).source.get? s.pulled
              = none := by
            rw [successCfg_pull, hsrc]
            rfl
          have heq : runStrand false (successCfg E src f conc stop) s (.driver i)
              = ((doneStep (successCfg E src f conc stop) s).1,
                 [Strand.driver (i + 1)]) := by
            rw [runStrand_driver, if_neg h1, if_neg h2]
            unfold driverNext
            rw [doNext_of_done _ _ hres' hpull]
            obtain ⟨-, h2'⟩ := successInv_doneStep src f conc stop s
              (l₁ ++ [Strand.driver (i + 1)] ++ l₂)
              (successInv_swap_driver src f s l₁ l₂ [Strand.driver (i + 1)] i inv
                (hdone _ (by simp)))
              hres' (List.get?_eq_none.1 hsrc)
            rcases hds : doneStep (successCfg E src f conc stop) s with ⟨s', r⟩
            rw [hds] at h2'
            dsimp only at h2'
            rw [h2']
            rfl
          rw [heq]
          exact (successInv_doneStep src f conc stop s
            (l₁ ++ [Strand.driver (i + 1)] ++ l₂)
            (successInv_swap_driver src f s l₁ l₂ [Strand.driver (i + 1)] i inv
              (hdone _ (by simp)))
            hres' (List.get?_eq_none.1 hsrc)).1
        · have hpull : (successCfg E src f conc stop).source.get? s.pulled
              = some (.val t) := by
            rw [successCfg_pull, hsrc]
            rfl
          have heq : runStrand false (successCfg E src f conc stop) s (.driver i)
              = ({ s with pulled := s.pulled + 1, currentIndex := s.currentIndex + 1, resolvingCount := s.resolvingCount + 1 }, [Strand.taskStart s.currentIndex t, Strand.driver (i + 1)]) := by
            rw [runStrand_driver, if_neg h1, if_neg h2]
            unfold driverNext
            rw [doNext_of_val _ _ t hres' hpull]
            rfl
          rw [heq]
          exact successInv_spawn src f s l₁ l₂ [Strand.driver (i + 1)] t
            (successInv_swap_driver src f s l₁ l₂ [Strand.driver (i + 1)] i inv
              (hdone _ (by simp)))
            (hdone _ (by simp)) hres' hsrc

/-- Preservation: a settling task.  On the success path the settlement is
always `Except.ok`; after the write-back the task refills the window with
`await next()`, which spawns a new task, finalizes, or is a no-op. -/
theorem successInv_taskAwait (src : List T) (f : T → Nat → MapOut R)
    (conc : Conc) (stop : Bool) (s : St R E)
    (l₁ l₂ : List (Strand T R E)) (i : Nat) (out : Except E (MapOut R))
    (inv : SuccessInv src f s (l₁ ++ .taskAwait i out :: l₂)) :
    SuccessInv src f
      (runStrand false (successCfg E src f conc stop) s (.taskAwait i out)).1
      (l₁ ++ (runStrand false (successCfg E src f conc stop) s
        (.taskAwait i out)).2 ++ l₂) := by
  obtain ⟨t, hti, hout, hresi, hlt⟩ := inv.await_ok i out (by simp)
  subst hout
  have hinvw := successInv_write src f s l₁ l₂ i (f t i) inv
  have hres : s.isResolved = false := by
    by_cases h : s.isResolved = true
    · exact absurd (inv.resolved_tasks h).1
        (countTasks_pos_of_mem l₁ l₂ (Strand.taskAwait i (Except.ok (f t i))) rfl)
    · simpa using h
  have hresw : (writeResult s i (f t i)).isResolved = false := hres
  rcases hsrc : src.get? s.pulled with _ | t'
  · have hpull : (successCfg E src f conc stop).source.get?
        (writeResult s i (f t i)).pulled = none := by
      rw [successCfg_pull]
      show (src.get? s.pulled).map _ = none
      rw [hsrc]
      rfl
    have heq : runStrand false (successCfg E src f conc stop) s
          (.taskAwait i (Except.ok (f t i)))
        = ((doneStep (successCfg E src f conc stop) (writeResult s i (f t i))).1,
           []) := by
      rw [runStrand_taskAwait_ok]
      unfold settleOk
      rw [doNext_of_done _ _ hresw hpull]
      obtain ⟨-, h2'⟩ := successInv_doneStep src f conc stop
        (writeResult s i (f t i)) (l₁ ++ ([] : List (Strand T R E)) ++ l₂)
        hinvw hresw (by
          show src.length ≤ s.pulled
          exact List.get?_eq_none.1 hsrc)
      rcases hds : doneStep (successCfg E src f conc stop)
        (writeResult s i (f t i)) with ⟨s', r⟩
      rw [hds] at h2'
      dsimp only at h2'
      rw [h2']
      rfl
    rw [heq]
    exact (successInv_doneStep src f conc stop (writeResult s i (f t i))
      (l₁ ++ ([] : List (Strand T R E)) ++ l₂) hinvw hresw (by
        show src.length ≤ s.pulled
        exact List.get?_eq_none.1 hsrc)).1
  · have hpull : (successCfg E src f conc stop).source.get?
        (writeResult s i (f t i)).pulled = some (.val t') := by
      rw [successCfg_pull]
      show (src.get? s.pulled).map _ = _
      rw [hsrc]
      rfl
    have heq : runStrand false (successCfg E src f conc stop) s
          (.taskAwait i (Except.ok (f t i)))
        = ({ writeResult s i (f t i) with pulled := (writeResult s i (f t i)).pulled + 1, currentIndex := (writeResult s i (f t i)).currentIndex + 1, resolvingCount := (writeResult s i (f t i)).resolvingCount + 1 }, [Strand.taskStart (writeResult s i (f t i)).currentIndex t']) := by
      rw [runStrand_taskAwait_ok]
      unfold settleOk
      rw [doNext_of_val _ _ t' hresw hpull]
      rfl
    rw [heq]
    exact successInv_spawn src f (writeResult s i (f t i)) l₁ l₂ [] t'
      hinvw (by simp) hresw (by
        show src.get? s.pulled = some t'
        exact hsrc)

/-- Preservation: any scheduling step. -/
theorem successInv_step (cf : Bool) (src : List T) (f : T → Nat → MapOut R)
    (conc : Conc) (stop : Bool) (s : St R E)
    (l₁ l₂ : List (Strand T R E)) (str : Strand T R E)
    (inv : SuccessInv src f s (l₁ ++ str :: l₂)) :
    SuccessInv src f
      (stepAt cf (successCfg E src f conc stop) s l₁ str l₂).1
      (stepAt cf (successCfg E src f conc stop) s l₁ str l₂).2 := by
  cases str with
  | driver i =>
      show SuccessInv src f
        (runStrand cf (successCfg E src f conc stop) s (.driver i)).1
        (l₁ ++ (runStrand cf (successCfg E src f conc stop) s (.driver i)).2 ++ l₂)
      rw [runStrand_driver_variant]
      exact successInv_driver src f conc stop s l₁ l₂ i inv
  | taskStart i t => exact successInv_taskStart cf src f conc stop s l₁ l₂ i t inv
  | taskAwait i out =>
      show SuccessInv src f
        (runStrand cf (successCfg E src f conc stop) s (.taskAwait i out)).1
        (l₁ ++ (runStrand cf (successCfg E src f conc stop) s
          (.taskAwait i out)).2 ++ l₂)
      rw [runStrand_taskAwait_variant]
      exact successInv_taskAwait src f conc stop s l₁ l₂ i out inv

/-- The invariant holds at the start of the call. -/
theorem successInv_init (src : List T) (f : T → Nat → MapOut R) :
    SuccessInv src f (initSt : St R E) [Strand.driver 0] := by
  refine ⟨rfl, rfl, rfl, by simp [initSt], ?_, ?_, ?_, ?_, ?_, ?_, ?_, ?_,
    rfl, ?_, ?_, ?_, ?_⟩
  · intro j u hj
    simp at hj
  · intro j out hj
    simp at hj
  · simp [taskIndices, Strand.taskIndex?]
  · intro j hj1 hj2 hj3
    simp [initSt] at hj1
  · intro j v hj
    simp [initSt] at hj
  · intro j
    simp [initSt]
  · exact ⟨fun _ => rfl, fun _ => rfl⟩
  · intro h
    simp [initSt] at h
  · simp [initSt]
  · simp [initSt]
  · intro j hj
    simp [initSt] at hj
  · intro o ho
    simp [initSt] at ho

/-- Every reachable configuration of a failure-free call satisfies the
success invariant. -/
theorem successInv_reach (cf : Bool) (src : List T) (f : T → Nat → MapOut R)
    (conc : Conc) (stop : Bool) (p : St R E × List (Strand T R E))
    (h : Reach cf (successCfg E src f conc stop) p) :
    SuccessInv src f p.1 p.2 := by
  induction h with
  | init => exact successInv_init src f
  | step hprev ih => exact successInv_step cf src f conc stop _ _ _ _ ih

/-! ## C6: input validation -/

/-- Validation succeeds only on an iterable input, a function mapper and a
concurrency accepted by `assertConcurrency`. -/
theorem validatePMap_none (input : RawIterable) (mfn : Bool) (c : JsNumber)
    (h : validatePMap input mfn c = none) :
    (input.isAsyncIterable = true ∨ input.isIterable = true) ∧ mfn = true ∧
      assertConcurrency c = true := by
  rcases input with ⟨a, b⟩
  unfold validatePMap at h
  revert h
  cases a <;> cases b <;> cases mfn <;>
    rcases hac : assertConcurrency c with _ | _ <;> simp [hac]

/-- The claim's invalid concurrency values fail `assertConcurrency`. -/
theorem assertConcurrency_claim_invalid (c : JsNumber)
    (h : claimInvalidConcurrency c) : assertConcurrency c = false := by
  rcases h with h | ⟨i, rfl, hi⟩ | ⟨b, rfl⟩
  · subst h; rfl
  · simp only [assertConcurrency, jsGeOne, Bool.and_eq_false_iff]
    right
    simpa using by omega
  · rfl

/-- C6: for every concurrency value that is `0`, negative, or not an
integer (and not the `Infinity` sentinel), `pMap` fails with the
`PMapError` validation failure and the mapper is never invoked; the same
holds when the source is not iterable or the mapper is not a function. -/
theorem c6_validation_rejects (cf : Bool) (input : RawIterable) (mfn : Bool)
    (c : JsNumber) (source : List (PullItem T E))
    (mapper : T → Nat → Except E (MapOut R)) (stop : Bool)
    (h : claimInvalidConcurrency c ∨
      (input.isAsyncIterable = false ∧ input.isIterable = false) ∨ mfn = false) :
    (∃ e : PMapError, pMapStart input mfn c source mapper stop = .error e) ∧
      ¬ pMapInvoked cf input mfn c source mapper stop := by
  have hval : validatePMap input mfn c ≠ none := by
    intro hnone
    rcases validatePMap_none input mfn c hnone with ⟨hiter, hfn, hconc⟩
    rcases h with h | ⟨h1, h2⟩ | h
    · rw [assertConcurrency_claim_invalid c h] at hconc
      exact absurd hconc (by simp)
    · rcases hiter with h' | h' <;> simp_all
    · simp_all
  constructor
  · unfold pMapStart
    rcases hv : validatePMap input mfn c with _ | e
    · exact absurd hv hval
    · exact ⟨e, rfl⟩
  · rintro ⟨cfg, s, L, hok, -, -⟩
    unfold pMapStart at hok
    rcases hv : validatePMap input mfn c with _ | e
    · exact absurd hv hval
    · rw [hv] at hok
      exact absurd hok (by simp)

/-- Witness for C6 at a concrete invalid input: `concurrency = 0`. -/
theorem c6_validation_rejects_witness :
    (claimInvalidConcurrency (.int 0) ∨
      ((⟨true, true⟩ : RawIterable).isAsyncIterable = false ∧
        (⟨true, true⟩ : RawIterable).isIterable = false) ∨ true = false) ∧
    ((∃ e : PMapError, pMapStart ⟨true, true⟩ true (.int 0)
        ([.val 1] : List (PullItem Nat Nat))
        (fun t _ => (.ok (.val t) : Except Nat (MapOut Nat))) true = .error e) ∧
      ¬ pMapInvoked false ⟨true, true⟩ true (.int 0) [.val 1]
        (fun t _ => (.ok (.val t) : Except Nat (MapOut Nat))) true) := by
  have hbad : claimInvalidConcurrency (.int 0) := by
    unfold claimInvalidConcurrency
    exact Or.inl rfl
  exact ⟨Or.inl hbad,
    c6_validation_rejects false ⟨true, true⟩ true (.int 0) [.val 1]
      (fun t _ => (.ok (.val t) : Except Nat (MapOut Nat))) true (Or.inl hbad)⟩

/-! ## C9: `AggregateError` -/

/-- Reading a freshly allocated array. -/
theorem store_read_alloc (st : Store) (xs : List JsError) :
    Store.read (st.alloc xs).2 (st.alloc xs).1 = xs := by
  simp [Store.alloc, Store.read, List.getElem?_concat_length]

/-- Allocation does not move existing arrays. -/
theorem store_read_alloc_lt (st : Store) (xs : List JsError) (r : Nat)
    (h : r < st.length) : Store.read (st.alloc xs).2 r = Store.read st r := by
  simp [Store.alloc, Store.read, List.getElem?_append_left h]

/-- Writing one array leaves the others alone. -/
theorem store_read_write_ne (st : Store) (r r' : Nat) (xs : List JsError)
    (h : r ≠ r') : Store.read (st.write r' xs) r = Store.read st r := by
  simp [Store.write, Store.read, List.getElem?_set_ne (Ne.symm h)]

/-- Normalization turns each failure into an `Error` with that failure's
message, in order. -/
theorem normalize_messages (es : List ErrorLike) :
    (es.map normalizeError).map JsError.message = es.map errorLikeMessage := by
  induction es with
  | nil => rfl
  | cons e es ih =>
      cases e <;> simp [normalizeError, errorLikeMessage, newError, ih]

/-- C9: the `AggregateError` constructor normalizes every input failure
(an `Error`, a plain object with a `message`, or a string) into an `Error`
with that message, preserving input order; `errors()` returns a fresh copy
of the normalized ordered list, and mutating the returned copy does not
change what a subsequent `errors()` call returns. -/
theorem c9_aggregate_error (es : List ErrorLike) (st : Store)
    (mutated : List JsError) :
    (Store.read (errorsMethod (mkAggregateError es st).1 (mkAggregateError es st).2).2
        (errorsMethod (mkAggregateError es st).1 (mkAggregateError es st).2).1
      = es.map normalizeError) ∧
    (Store.read
        (errorsMethod (mkAggregateError es st).1
          (Store.write
            (errorsMethod (mkAggregateError es st).1 (mkAggregateError es st).2).2
            (errorsMethod (mkAggregateError es st).1 (mkAggregateError es st).2).1
            mutated)).2
        (errorsMethod (mkAggregateError es st).1
          (Store.write
            (errorsMethod (mkAggregateError es st).1 (mkAggregateError es st).2).2
            (errorsMethod (mkAggregateError es st).1 (mkAggregateError es st).2).1
            mutated)).1
      = es.map normalizeError) ∧
    ((es.map normalizeError).map JsError.message = es.map errorLikeMessage) ∧
    (∀ e : JsError, normalizeError (.err e) = e) := by
  have hobj : (mkAggregateError es st).1.errorsRef = st.length := rfl
  have hst : (mkAggregateError es st).2 = st ++ [es.map normalizeError] := rfl
  have hread : Store.read (mkAggregateError es st).2 (mkAggregateError es st).1.errorsRef
      = es.map normalizeError := by
    rw [hobj, hst]
    simp [Store.read, List.getElem?_concat_length]
  refine ⟨?_, ?_, normalize_messages es, fun e => rfl⟩
  · unfold errorsMethod
    rw [hread]
    exact store_read_alloc _ _
  · unfold errorsMethod
    rw [hread]
    have h1 : (((mkAggregateError es st).2.alloc (es.map normalizeError)).1)
        = st.length + 1 := by
      rw [hst]; simp [Store.alloc]
    have h2 : Store.read
        (Store.write ((mkAggregateError es st).2.alloc (es.map normalizeError)).2
          (((mkAggregateError es st).2.alloc (es.map normalizeError)).1) mutated)
        (mkAggregateError es st).1.errorsRef = es.map normalizeError := by
      rw [store_read_write_ne, store_read_alloc_lt, hread]
      · rw [hobj, hst]; simp
      · rw [hobj, h1]; omega
    rw [h2]
    exact store_read_alloc _ _

/-! ## C5: a pull failure after a logged failure is immediately terminal -/

/-- C5: under `stopOnError = false`, when a strand has just recorded a
mapper failure `e` and the next pull itself throws `e₂`, the call rejects
right away with `e₂` as the rejection reason; `e₂` is not appended to the
error log (only `e` is) and the rejection is not deferred to the
end-of-run composite. -/
theorem c5_pull_failure_after_failure (cfg : Cfg T R E) (s : St R E) (i : Nat)
    (e e₂ : E) (hstop : cfg.stopOnError = false) (hres : s.isResolved = false)
    (hout : s.outcome = none)
    (hpull : cfg.source.get? s.pulled = some (.err e₂)) :
    (runStrand false cfg s (.taskAwait i (.error e))).1.outcome
        = some (.rejected (.err e₂)) ∧
    (runStrand false cfg s (.taskAwait i (.error e))).1.errors = s.errors ++ [e] ∧
    (runStrand false cfg s (.taskAwait i (.error e))).1.isRejected = true ∧
    (runStrand false cfg s (.taskAwait i (.error e))).2 = [] := by
  rw [runStrand_taskAwait_error]
  unfold catchBlock
  rw [hstop, doNext_of_err cfg (logError s e) e₂ hres hpull]
  simp [rejectSt, settleSt, logError, hout, Option.orElse]

/-- Witness state for C5: one element already pulled, one task pending. -/
theorem c5_pull_failure_after_failure_witness :
    (exCfgPullAfter.stopOnError = false ∧
      ({ initSt with pulled := 1, resolvingCount := 1 } : St Nat Nat).isResolved = false ∧
      ({ initSt with pulled := 1, resolvingCount := 1 } : St Nat Nat).outcome = none ∧
      exCfgPullAfter.source.get?
        ({ initSt with pulled := 1, resolvingCount := 1 } : St Nat Nat).pulled
        = some (.err 42)) ∧
    ((runStrand false exCfgPullAfter { initSt with pulled := 1, resolvingCount := 1 }
        (.taskAwait 0 (.error 5))).1.outcome = some (.rejected (.err 42)) ∧
     (runStrand false exCfgPullAfter { initSt with pulled := 1, resolvingCount := 1 }
        (.taskAwait 0 (.error 5))).1.errors
        = ({ initSt with pulled := 1, resolvingCount := 1 } : St Nat Nat).errors ++ [5] ∧
     (runStrand false exCfgPullAfter { initSt with pulled := 1, resolvingCount := 1 }
        (.taskAwait 0 (.error 5))).1.isRejected = true ∧
     (runStrand false exCfgPullAfter { initSt with pulled := 1, resolvingCount := 1 }
        (.taskAwait 0 (.error 5))).2 = []) :=
  ⟨⟨rfl, rfl, rfl, rfl⟩,
   c5_pull_failure_after_failure exCfgPullAfter
     { initSt with pulled := 1, resolvingCount := 1 } 0 5 42 rfl rfl rfl rfl⟩

/-! ## C2: the termination guard and in-flight tasks -/

/-- Counterexample to C2 as stated: in the concrete run of `exCfgGuard`
below, after the first task's failure has terminated the call
(`isResolved = true`, outcome rejected), the second task's mapper is still
in flight (`taskAwait 1`), and letting it settle mutates the result
buffer: `result[1]` changes from unwritten to `val 7`.  The write of a
mapper's return value is therefore not guarded by the terminated flag. -/
theorem c2_counterexample :
    (runSched false exCfgGuard [0, 1, 2, 0, 1, 0] initPair).1.isResolved = true ∧
    (runSched false exCfgGuard [0, 1, 2, 0, 1, 0] initPair).1.result 1 = none ∧
    (runSched false exCfgGuard [0, 1, 2, 0, 1, 0] initPair).2
      = [.taskAwait 1 (.ok (.val 7))] ∧
    (runSched false exCfgGuard [0, 1, 2, 0, 1, 0, 0] initPair).1.result 1
      = some (.val 7) ∧
    Reach false exCfgGuard (runSched false exCfgGuard [0, 1, 2, 0, 1, 0, 0] initPair) :=
  ⟨by decide, by decide, rfl, by decide,
   reach_runSched false exCfgGuard [0, 1, 2, 0, 1, 0, 0] initPair Reach.init⟩

/-- C2 (amended): the termination guard is checked before the mapper is
invoked, not after it settles.  In the TypeScript core (`src/index.ts`,
the subject of this claim; the `false` variant of `runStrand`), a task
that observes `isResolved` after its element await and before invoking
its mapper exits leaving the whole state — in particular the result
buffer and the error log — unchanged; a task whose mapper was already in
flight when the call terminated does write `result[index]` (and, under
`stopOnError = false`, append to the error log) after termination, though
the already-settled promise makes the write unobservable. -/
theorem c2_amended_guard_before_mapper (cfg : Cfg T R E)
    (s : St R E) (i : Nat) (t : T) (h : s.isResolved = true) :
    runStrand false cfg s (.taskStart i t) = (s, []) := by
  rw [runStrand_taskStart, if_pos ⟨rfl, h⟩]

/-- Witness for the amended C2 at a terminated concrete state. -/
theorem c2_amended_guard_before_mapper_witness :
    ({ initSt with isResolved := true } : St Nat Nat).isResolved = true ∧
    runStrand false exCfgGuard { initSt with isResolved := true }
        (.taskStart 0 10) = ({ initSt with isResolved := true }, []) :=
  ⟨rfl, c2_amended_guard_before_mapper exCfgGuard
    { initSt with isResolved := true } 0 10 rfl⟩

/-! ## C1: the success path resolves with the spec sequence -/

/-- C1: for every source, every mapper and every concurrency (a positive
integer or `Infinity`), when no pull and no mapper invocation fails, any
settlement of the `pMap` promise — under any scheduling of the concurrent
strands, hence regardless of completion order — is a resolution with the
mapper applied to each source element in source order and exactly the
`pMapSkip` positions removed, relative order preserved. -/
theorem c1_success_resolves (src : List T) (f : T → Nat → MapOut R)
    (conc : Conc) (stop : Bool) (hconc : Conc.ltGuard 0 conc = true)
    (s : St R E) (L : List (Strand T R E))
    (h : Reach false (successCfg E src f conc stop) (s, L))
    (o : Outcome R E) (ho : s.outcome = some o) :
    o = Outcome.resolved ((specList src f).map some) :=
  (successInv_reach false src f conc stop (s, L) h).out_sound o ho

/-- Witness for C1: a concrete failure-free run with `concurrency = 2`
resolves with the spec sequence. -/
theorem c1_success_resolves_witness :
    Conc.ltGuard 0 (Conc.num 2) = true ∧
    (runSched false exCfgSuccess [0, 1, 2, 0, 1, 0, 0] initPair).1.outcome
      = some (.resolved [some (.val 5), some (.val 7)]) ∧
    (Outcome.resolved [some (.val 5), some (.val 7)] : Outcome Nat Nat)
      = Outcome.resolved ((specList [5, 6] (fun t i => MapOut.val (t + i))).map some) :=
  ⟨rfl, by decide,
   c1_success_resolves [5, 6] (fun t i => MapOut.val (t + i)) (.num 2) true rfl
     (runSched false exCfgSuccess [0, 1, 2, 0, 1, 0, 0] initPair).1
     (runSched false exCfgSuccess [0, 1, 2, 0, 1, 0, 0] initPair).2
     (by
       have := reach_runSched false exCfgSuccess [0, 1, 2, 0, 1, 0, 0]
         initPair Reach.init
       exact this)
     (.resolved [some (.val 5), some (.val 7)]) (by decide)⟩

/-! ## C8: empty source and all-skip source -/

theorem removeSkips_all_skip (l : List (MapOut R))
    (h : ∀ v ∈ l, v = MapOut.skip) : removeSkips l = [] := by
  induction l with
  | nil => rfl
  | cons v l ih =>
      rw [h v (by simp)]
      exact ih (fun w hw => h w (by simp [hw]))

theorem mem_mapWithIndex (f : T → Nat → β) (l : List T) (k : Nat) (v : β)
    (h : v ∈ mapWithIndex f l k) : ∃ t j, v = f t j := by
  induction l generalizing k with
  | nil => cases h
  | cons t ts ih =>
      rcases List.mem_cons.1 h with h | h
      · exact ⟨t, k, h⟩
      · exact ih (k + 1) h

/-- C8: an empty source resolves with the empty sequence for every
concurrency value (and such a resolution is in fact reached after one
scheduling step), and a source all of whose elements map to the
`pMapSkip` sentinel likewise can only resolve with the empty sequence —
never reject. -/
theorem c8_empty_and_all_skip :
    (∀ (f : T → Nat → MapOut R) (conc : Conc) (stop : Bool) (s : St R E)
        (L : List (Strand T R E)) (o : Outcome R E),
        Reach false (successCfg E [] f conc stop) (s, L) →
        s.outcome = some o → o = .resolved []) ∧
    (∀ (f : T → Nat → MapOut R) (conc : Conc) (stop : Bool),
        Conc.ltGuard 0 conc = true →
        ∃ (s : St R E) (L : List (Strand T R E)),
          Reach false (successCfg E [] f conc stop) (s, L) ∧
          s.outcome = some (.resolved [])) ∧
    (∀ (src : List T) (f : T → Nat → MapOut R) (conc : Conc) (stop : Bool)
        (s : St R E) (L : List (Strand T R E)) (o : Outcome R E),
        (∀ t i, f t i = MapOut.skip) →
        Reach false (successCfg E src f conc stop) (s, L) →
        s.outcome = some o → o = .resolved []) := by
  refine ⟨?_, ?_, ?_⟩
  · intro f conc stop s L o h ho
    have := (successInv_reach false [] f conc stop (s, L) h).out_sound o ho
    rw [this]
    rfl
  · intro f conc stop hconc
    have h0 : Reach false (successCfg E [] f conc stop)
        (initSt, [] ++ Strand.driver 0 :: []) := Reach.init
    have h1 := Reach.step h0
    have hcond2 : ¬(Conc.ltGuard 0 (successCfg E [] f conc stop).conc = false) := by
      rw [show (successCfg E [] f conc stop).conc = conc from rfl, hconc]
      simp
    have heq : runStrand false (successCfg E [] f conc stop) initSt (Strand.driver 0)
        = ((doneStep (successCfg E [] f conc stop) initSt).1, [Strand.driver 1]) := by
      rw [runStrand_driver, if_neg (by simp), if_neg hcond2]
      unfold driverNext
      rw [doNext_of_done (successCfg E [] f conc stop) initSt rfl rfl]
      rcases hds : doneStep (successCfg E [] f conc stop) initSt with ⟨s', r⟩
      have hr : r = NextRes.ok none := by
        have h2 := doneStep_snd (successCfg E [] f conc stop) initSt
        rw [hds] at h2
        exact h2
      rw [hr]
      rfl
    obtain ⟨xs, hxs⟩ := doneStep_settles (successCfg E [] f conc stop) initSt
      rfl rfl (Or.inr rfl) rfl
    refine ⟨(stepAt false (successCfg E [] f conc stop) initSt []
      (Strand.driver 0) []).1,
      (stepAt false (successCfg E [] f conc stop) initSt []
        (Strand.driver 0) []).2, h1, ?_⟩
    have hout : (stepAt false (successCfg E [] f conc stop) initSt []
        (Strand.driver 0) []).1.outcome = some (.resolved xs) := by
      show (runStrand false (successCfg E [] f conc stop) initSt
        (Strand.driver 0)).1.outcome = _
      rw [heq]
      exact hxs
    have hsound := (successInv_reach false [] f conc stop _ h1).out_sound _ hout
    have hspec : (Outcome.resolved xs : Outcome R E) = Outcome.resolved [] := by
      rw [hsound]
      rfl
    rw [hspec] at hout
    exact hout
  · intro src f conc stop s L o hskip h ho
    have := (successInv_reach false src f conc stop (s, L) h).out_sound o ho
    rw [this]
    have : specList src f = [] := by
      unfold specList
      refine removeSkips_all_skip _ (fun v hv => ?_)
      obtain ⟨t, j, rfl⟩ := mem_mapWithIndex f src 0 v hv
      exact hskip t j
    rw [this]
    rfl

/-- Witness for C8 at `concurrency = 3` and an all-skip run. -/
theorem c8_empty_and_all_skip_witness :
    (Conc.ltGuard 0 (Conc.num 3) = true ∧
      ∃ (s : St Nat Nat) (L : List (Strand Nat Nat Nat)),
        Reach false (successCfg Nat ([] : List Nat)
          (fun t i => MapOut.val (t + i)) (.num 3) true) (s, L) ∧
        s.outcome = some (.resolved [])) ∧
    ((∀ (t i : Nat), (fun (_ : Nat) (_ : Nat) => (MapOut.skip : MapOut Nat)) t i
        = MapOut.skip) ∧
      (runSched false (successCfg Nat [1, 2] (fun _ _ => (MapOut.skip : MapOut Nat)) (.num 1) true)
        (List.replicate 8 0) initPair).1.outcome = some (.resolved []) ∧
      ((Outcome.resolved [] : Outcome Nat Nat) = .resolved [])) := by
  refine ⟨⟨rfl, (@c8_empty_and_all_skip Nat Nat Nat).2.1
    (fun t i => MapOut.val (t + i)) (.num 3) true rfl⟩, ⟨fun t i => rfl, ?_, ?_⟩⟩
  · decide
  · exact (@c8_empty_and_all_skip Nat Nat Nat).2.2
      [1, 2] (fun _ _ => (MapOut.skip : MapOut Nat)) (.num 1) true
      (runSched false (successCfg Nat [1, 2]
        (fun _ _ => (MapOut.skip : MapOut Nat))
        (.num 1) true) (List.replicate 8 0) initPair).1
      (runSched false (successCfg Nat [1, 2]
        (fun _ _ => (MapOut.skip : MapOut Nat))
        (.num 1) true) (List.replicate 8 0) initPair).2
      (.resolved [])
      (fun _ _ => rfl)
      (reach_runSched false _ (List.replicate 8 0) initPair Reach.init)
      (by decide)

/-! ## C10: the TypeScript and JavaScript cores agree on the success path -/

/-- C10: the TypeScript core (`src/index.ts`, which awaits the element
before its `isResolved` guard — the `false` variant) and the
plain-JavaScript core (which checks the guard before the element await
and invokes the mapper unconditionally afterwards — the `true` variant)
are equivalent on the success path: for every validated source, mapper
and options, when no pull or mapper invocation fails, any settlements the
two variants reach are the same sequence — both the spec sequence.  The
two variants genuinely differ as step functions (a parked task scheduled
after settlement exits in one and invokes the mapper in the other); the
proof shows the success invariant is preserved by both, because on the
failure-free path no task strand can be pending once the call settles. -/
theorem c10_ts_js_equivalent (src : List T) (f : T → Nat → MapOut R)
    (conc : Conc) (stop : Bool) (s s' : St R E)
    (L L' : List (Strand T R E)) (o o' : Outcome R E)
    (hts : Reach false (successCfg E src f conc stop) (s, L))
    (hjs : Reach true (successCfg E src f conc stop) (s', L'))
    (ho : s.outcome = some o) (ho' : s'.outcome = some o') :
    o = o' ∧ o = Outcome.resolved ((specList src f).map some) := by
  have h1 := (successInv_reach false src f conc stop (s, L) hts).out_sound o ho
  have h2 := (successInv_reach true src f conc stop (s', L') hjs).out_sound o' ho'
  exact ⟨h1.trans h2.symm, h1⟩

/-- Witness for C10: the concrete success run under both variants. -/
theorem c10_ts_js_equivalent_witness :
    (runSched false exCfgSuccess [0, 1, 2, 0, 1, 0, 0] initPair).1.outcome
      = some (.resolved [some (.val 5), some (.val 7)]) ∧
    (runSched true exCfgSuccess [0, 1, 2, 0, 1, 0, 0] initPair).1.outcome
      = some (.resolved [some (.val 5), some (.val 7)]) ∧
    ((Outcome.resolved [some (.val 5), some (.val 7)] : Outcome Nat Nat)
        = .resolved [some (.val 5), some (.val 7)] ∧
      (Outcome.resolved [some (.val 5), some (.val 7)] : Outcome Nat Nat)
        = Outcome.resolved ((specList [5, 6]
            (fun t i => MapOut.val (t + i))).map some)) := by
  refine ⟨by decide, by decide, ?_⟩
  exact c10_ts_js_equivalent [5, 6] (fun t i => MapOut.val (t + i)) (.num 2) true
    (runSched false exCfgSuccess [0, 1, 2, 0, 1, 0, 0] initPair).1
    (runSched true exCfgSuccess [0, 1, 2, 0, 1, 0, 0] initPair).1
    (runSched false exCfgSuccess [0, 1, 2, 0, 1, 0, 0] initPair).2
    (runSched true exCfgSuccess [0, 1, 2, 0, 1, 0, 0] initPair).2
    (.resolved [some (.val 5), some (.val 7)])
    (.resolved [some (.val 5), some (.val 7)])
    (reach_runSched false exCfgSuccess [0, 1, 2, 0, 1, 0, 0] initPair Reach.init)
    (reach_runSched true exCfgSuccess [0, 1, 2, 0, 1, 0, 0] initPair Reach.init)
    (by decide) (by decide)

/-! ## C7: the concurrency window -/

theorem potSum_append (c : Nat) (a b : List (Strand T R E)) :
    potSum c (a ++ b) = potSum c a + potSum c b := by
  simp [potSum]

theorem potSum_spawnOf (c : Nat) (sp : Option (Nat × T)) :
    potSum c (spawnOf sp : List (Strand T R E)) ≤ 1 := by
  cases sp with
  | none => simp [spawnOf, potSum]
  | some p =>
      cases p
      simp [spawnOf, potSum, strandPot]

theorem catchBlock_pot (c : Nat) (cfg : Cfg T R E) (s : St R E) (e : E) :
    potSum c (catchBlock cfg s e).2 ≤ 1 := by
  unfold catchBlock
  by_cases hstop : cfg.stopOnError
  · rw [if_pos hstop]
    simp [potSum]
  · rw [if_neg hstop]
    rcases h : doNext cfg (logError s e) with ⟨s₂, r⟩
    cases r with
    | ok sp => exact potSum_spawnOf c sp
    | threw e₂ => simp [potSum]

theorem settleOk_pot (c : Nat) (cfg : Cfg T R E) (s : St R E) (index : Nat)
    (v : MapOut R) : potSum c (settleOk cfg s index v).2 ≤ 1 := by
  unfold settleOk
  rcases h : doNext cfg (writeResult s index v) with ⟨s₂, r⟩
  cases r with
  | ok sp => exact potSum_spawnOf c sp
  | threw e => exact catchBlock_pot c cfg s₂ e

theorem driverNext_pot (c : Nat) (cfg : Cfg T R E) (s : St R E) (i : Nat)
    (h : i < c) : potSum c (driverNext cfg s i).2 ≤ c - i := by
  unfold driverNext
  rcases hdn : doNext cfg s with ⟨s₁, r⟩
  cases r with
  | ok sp =>
      show potSum c ((spawnOf sp : List (Strand T R E))
        ++ [Strand.driver (i + 1)]) ≤ c - i
      rw [potSum_append]
      have h1 : potSum c (spawnOf sp : List (Strand T R E)) ≤ 1 :=
        potSum_spawnOf c sp
      have h2 : potSum c ([Strand.driver (i + 1)] : List (Strand T R E))
          = c - (i + 1) := by
        simp [potSum, strandPot]
      rw [h2]
      omega
  | threw e =>
      show potSum c ([] : List (Strand T R E)) ≤ c - i
      exact Nat.zero_le _

theorem runStrand_pot (cf : Bool) (c : Nat) (cfg : Cfg T R E) (s : St R E)
    (str : Strand T R E) (hc : cfg.conc = Conc.num c) :
    potSum c (runStrand cf cfg s str).2 ≤ strandPot c str := by
  cases str with
  | driver i =>
      rw [runStrand_driver]
      by_cases h1 : 0 < i ∧ (s.isIterableDone = true ∨ s.isRejected = true)
      · rw [if_pos h1]
        exact Nat.zero_le _
      · rw [if_neg h1]
        by_cases h2 : (cfg.conc.ltGuard i) = false
        · rw [if_pos h2]
          exact Nat.zero_le _
        · rw [if_neg h2]
          have hlt : i < c := by
            have h3 : cfg.conc.ltGuard i = true := by
              cases h4 : cfg.conc.ltGuard i
              · exact absurd h4 h2
              · rfl
            rw [hc] at h3
            simpa [Conc.ltGuard] using h3
          exact driverNext_pot c cfg s i hlt
  | taskStart index t =>
      rw [runStrand_taskStart]
      split
      · exact Nat.zero_le _
      · show potSum c [Strand.taskAwait index (cfg.mapper t index)] ≤ 1
        simp [potSum, strandPot]
  | taskAwait index out =>
      cases out with
      | ok v =>
          rw [runStrand_taskAwait_ok]
          exact settleOk_pot c cfg s index v
      | error e =>
          rw [runStrand_taskAwait_error]
          exact catchBlock_pot c cfg s e

theorem potSum_reach (cf : Bool) (cfg : Cfg T R E) (c : Nat)
    (hc : cfg.conc = Conc.num c) (p : St R E × List (Strand T R E))
    (h : Reach cf cfg p) : potSum c p.2 ≤ c := by
  induction h with
  | init =>
      show potSum c [Strand.driver 0] ≤ c
      simp [potSum, strandPot]
  | @step s l₁ l₂ str h ih =>
      show potSum c (l₁ ++ (runStrand cf cfg s str).2 ++ l₂) ≤ c
      have hmid : potSum c (l₁ ++ str :: l₂)
          = potSum c l₁ + (strandPot c str + potSum c l₂) := by
        rw [show str :: l₂ = [str] ++ l₂ from rfl, potSum_append, potSum_append]
        have : potSum c ([str] : List (Strand T R E)) = strandPot c str := by
          simp [potSum]
        omega
      have hold : potSum c (l₁ ++ str :: l₂) ≤ c := ih
      have hnew := runStrand_pot cf c cfg s str hc
      rw [potSum_append, potSum_append]
      omega

theorem countAwait_le_potSum (c : Nat) (L : List (Strand T R E)) :
    L.countP Strand.isAwait ≤ potSum c L := by
  induction L with
  | nil => simp [potSum]
  | cons x xs ih =>
      have hx : (if Strand.isAwait x = true then 1 else 0) ≤ strandPot c x := by
        cases x <;> simp [Strand.isAwait, strandPot]
      rw [List.countP_cons]
      have hsum : potSum c (x :: xs) = strandPot c x + potSum c xs := by
        simp [potSum]
      rw [hsum]
      omega

/-- C7: at every reachable instant of a run with numeric
`concurrency = c ≥ 1` — under either variant and any scheduler — the
number of mapper invocations in flight (invoked but not yet settled, the
`taskAwait` strands) is at most `c`. -/
theorem c7_concurrency_window (cfg : Cfg T R E) (c : Nat) (cf : Bool)
    (s : St R E) (L : List (Strand T R E))
    (hc : cfg.conc = Conc.num c) (hge : 1 ≤ c)
    (h : Reach cf cfg (s, L)) :
    L.countP Strand.isAwait ≤ c :=
  le_trans (countAwait_le_potSum c L) (potSum_reach cf cfg c hc (s, L) h)

/-- Witness for C7: a mid-run configuration of the `concurrency = 2`
success run, whose in-flight count the theorem bounds by 2. -/
theorem c7_concurrency_window_witness :
    exCfgSuccess.conc = Conc.num 2 ∧ (1 ≤ 2) ∧
    (runSched false exCfgSuccess [0, 1] initPair).2.countP Strand.isAwait ≤ 2 :=
  ⟨rfl, by decide,
    c7_concurrency_window exCfgSuccess 2 false
      (runSched false exCfgSuccess [0, 1] initPair).1
      (runSched false exCfgSuccess [0, 1] initPair).2
      rfl (by decide)
      (reach_runSched false exCfgSuccess [0, 1] initPair Reach.init)⟩

/-! ## C3: first failure wins under stopOnError = true -/

theorem stopInv_settleSt (s : St R E) (xs : List (Option (MapOut R)))
    (h : StopInv s) : StopInv (settleSt s (Outcome.resolved xs)) := by
  refine ⟨h.1, fun r hr => ?_⟩
  have h' : Option.orElse s.outcome (fun _ => some (Outcome.resolved xs))
      = some (Outcome.rejected r) := hr
  cases ho : s.outcome with
  | none =>
      rw [ho] at h'
      have h'' : some (Outcome.resolved xs) = some (Outcome.rejected r) := h'
      simp at h''
  | some o =>
      rw [ho] at h'
      have h'' : some o = some (Outcome.rejected r) := h'
      exact h.2 r (by rw [ho, Option.some.inj h''])

theorem stopInv_rejectSt_err (s : St R E) (e : E)
    (h : StopInv s) : StopInv (rejectSt s (Reason.err e)) := by
  refine ⟨h.1, fun r hr => ?_⟩
  have h' : Option.orElse s.outcome (fun _ => some (Outcome.rejected (Reason.err e)))
      = some (Outcome.rejected r) := hr
  cases ho : s.outcome with
  | none =>
      rw [ho] at h'
      have h'' : some (Outcome.rejected (Reason.err e))
          = some (Outcome.rejected r) := h'
      have h3 : Reason.err e = r := by
        have := Option.some.inj h''
        simpa using this
      exact ⟨e, h3.symm⟩
  | some o =>
      rw [ho] at h'
      have h'' : some o = some (Outcome.rejected r) := h'
      exact h.2 r (by rw [ho, Option.some.inj h''])

theorem stopInv_doneStep (cfg : Cfg T R E) (s : St R E)
    (hstop : cfg.stopOnError = true) (h : StopInv s) :
    StopInv (doneStep cfg s).1 := by
  unfold doneStep
  dsimp only
  split
  · split
    · next hcond => exact absurd hcond.1 (by rw [hstop]; simp)
    · split
      · exact stopInv_settleSt _ _ ⟨h.1, h.2⟩
      · exact stopInv_settleSt _ _ ⟨h.1, h.2⟩
  · exact ⟨h.1, h.2⟩

theorem stopInv_doNext (cfg : Cfg T R E) (s : St R E)
    (hstop : cfg.stopOnError = true) (h : StopInv s) :
    StopInv (doNext cfg s).1 := by
  unfold doNext
  split
  · exact h
  · split
    · exact ⟨h.1, h.2⟩
    · exact ⟨h.1, h.2⟩
    · exact stopInv_doneStep cfg s hstop h

theorem stopInv_catchBlock (cfg : Cfg T R E) (s : St R E) (e : E)
    (hstop : cfg.stopOnError = true) (h : StopInv s) :
    StopInv (catchBlock cfg s e).1 := by
  unfold catchBlock
  rw [if_pos hstop]
  exact stopInv_rejectSt_err s e h

theorem stopInv_settleOk (cfg : Cfg T R E) (s : St R E) (index : Nat)
    (v : MapOut R) (hstop : cfg.stopOnError = true) (h : StopInv s) :
    StopInv (settleOk cfg s index v).1 := by
  unfold settleOk
  have hw : StopInv (writeResult s index v) := ⟨h.1, h.2⟩
  have hdn := stopInv_doNext cfg (writeResult s index v) hstop hw
  rcases hdn2 : doNext cfg (writeResult s index v) with ⟨s₂, sp | e⟩
  · rw [hdn2] at hdn
    exact hdn
  · rw [hdn2] at hdn
    exact stopInv_catchBlock cfg s₂ e hstop hdn

theorem stopInv_driverNext (cfg : Cfg T R E) (s : St R E) (i : Nat)
    (hstop : cfg.stopOnError = true) (h : StopInv s) :
    StopInv (driverNext cfg s i).1 := by
  unfold driverNext
  have hdn := stopInv_doNext cfg s hstop h
  rcases hdn2 : doNext cfg s with ⟨s₁, sp | e⟩
  · rw [hdn2] at hdn
    exact hdn
  · rw [hdn2] at hdn
    exact stopInv_rejectSt_err s₁ e hdn

theorem stopInv_runStrand (cf : Bool) (cfg : Cfg T R E) (s : St R E)
    (str : Strand T R E) (hstop : cfg.stopOnError = true) (h : StopInv s) :
    StopInv (runStrand cf cfg s str).1 := by
  cases str with
  | driver i =>
      rw [runStrand_driver]
      split
      · exact h
      · split
        · exact h
        · exact stopInv_driverNext cfg s i hstop h
  | taskStart index t =>
      rw [runStrand_taskStart]
      split
      · exact h
      · exact ⟨h.1, h.2⟩
  | taskAwait index out =>
      cases out with
      | ok v =>
          rw [runStrand_taskAwait_ok]
          exact stopInv_settleOk cfg s index v hstop h
      | error e =>
          rw [runStrand_taskAwait_error]
          exact stopInv_catchBlock cfg s e hstop h

theorem stopInv_reach (cf : Bool) (cfg : Cfg T R E)
    (hstop : cfg.stopOnError = true) (p : St R E × List (Strand T R E))
    (h : Reach cf cfg p) : StopInv p.1 := by
  induction h with
  | init => exact ⟨rfl, fun r hr => by cases hr⟩
  | @step s l₁ l₂ str h ih =>
      exact stopInv_runStrand cf cfg s str hstop ih

/-- C3: under `stopOnError = true`, the first failure to complete is the
sole rejection reason and later failures are discarded.  In every
reachable configuration the composite error log is empty and any recorded
rejection carries a single direct failure object (`Reason.err`), never an
aggregate; a failing settlement that arrives while the call is unsettled
rejects the call with exactly that error; and once the call is settled —
resolved or rejected — no strand, in particular no later failure, changes
the recorded outcome, so the caller observes exactly one outcome. -/
theorem c3_stop_on_error (cfg : Cfg T R E) (cf : Bool)
    (hstop : cfg.stopOnError = true) :
    (∀ (s : St R E) (L : List (Strand T R E)), Reach cf cfg (s, L) →
      s.errors = [] ∧
      ∀ r, s.outcome = some (Outcome.rejected r) → ∃ e, r = Reason.err e) ∧
    (∀ (s : St R E) (index : Nat) (e : E), s.outcome = none →
      (runStrand cf cfg s (Strand.taskAwait index (Except.error e))).1.outcome
        = some (Outcome.rejected (Reason.err e))) ∧
    (∀ (s : St R E) (str : Strand T R E) (o : Outcome R E),
      s.outcome = some o →
      (runStrand cf cfg s str).1.outcome = some o) := by
  refine ⟨fun s L h => stopInv_reach cf cfg hstop (s, L) h,
    fun s index e hout => ?_, fun s str o ho => runStrand_outcome_mono cf cfg s str o ho⟩
  rw [runStrand_taskAwait_error]
  unfold catchBlock
  rw [if_pos hstop]
  show Option.orElse s.outcome (fun _ => some (Outcome.rejected (Reason.err e)))
      = some (Outcome.rejected (Reason.err e))
  rw [hout]
  rfl

/-- Witness for C3 on the concrete `stopOnError = true` configuration. -/
theorem c3_stop_on_error_witness :
    exCfgGuard.stopOnError = true ∧
    ((initSt : St Nat Nat).errors = [] ∧
      ∀ r, (initSt : St Nat Nat).outcome = some (Outcome.rejected r) →
        ∃ e, r = Reason.err e) ∧
    (runStrand false exCfgGuard initSt
        (Strand.taskAwait 0 (Except.error 5))).1.outcome
      = some (Outcome.rejected (Reason.err 5)) ∧
    (runStrand false exCfgGuard (rejectSt initSt (Reason.err 9))
        (Strand.taskAwait 1 (Except.error 5))).1.outcome
      = some (Outcome.rejected (Reason.err 9)) := by
  refine ⟨rfl, ?_, ?_, ?_⟩
  · exact (c3_stop_on_error exCfgGuard false rfl).1 initSt [Strand.driver 0]
      Reach.init
  · exact (c3_stop_on_error exCfgGuard false rfl).2.1 initSt 0 5 rfl
  · exact (c3_stop_on_error exCfgGuard false rfl).2.2
      (rejectSt initSt (Reason.err 9)) (Strand.taskAwait 1 (Except.error 5))
      (Outcome.rejected (Reason.err 9)) rfl

/-! ## C4: rejection under stopOnError = false -/

theorem no_err_pull (cfg : Cfg T R E)
    (hsrc : ∀ p ∈ cfg.source, ∃ t, p = PullItem.val t) (n : Nat) (e : E) :
    cfg.source.get? n ≠ some (PullItem.err e) := by
  intro hc
  have hm : PullItem.err e ∈ cfg.source := List.get?_mem hc
  obtain ⟨t, ht⟩ := hsrc _ hm
  cases ht

theorem aggInv_doneStep (cfg : Cfg T R E) (hstop : cfg.stopOnError = false)
    (u : St R E) (n : Nat)
    (hres : u.isResolved = false) (hout : u.outcome = none)
    (hrc : u.resolvingCount = (n : Int)) :
    ((doneStep cfg u).1.isResolved = false →
      (doneStep cfg u).1.resolvingCount = (n : Int)) ∧
    ((doneStep cfg u).1.outcome = none ↔ (doneStep cfg u).1.isResolved = false) ∧
    ((doneStep cfg u).1.isResolved = true → n = 0) ∧
    (∀ r, (doneStep cfg u).1.outcome = some (Outcome.rejected r) →
      r = Reason.aggregate (doneStep cfg u).1.errors ∧
        (doneStep cfg u).1.errors ≠ [] ∧
        (doneStep cfg u).1.isIterableDone = true) := by
  unfold doneStep
  dsimp only
  split
  · next hA =>
      have h0 : u.resolvingCount = 0 := hA.1
      have hn : n = 0 := by omega
      split
      · next hB =>
          have hne : u.errors ≠ [] := by
            have hB2 : u.errors.isEmpty = false := hB.2
            intro hnil
            rw [hnil] at hB2
            simp at hB2
          have ho : (rejectSt { u with pulled := u.pulled + 1, currentIndex := u.currentIndex + 1, isIterableDone := true } (Reason.aggregate u.errors)).outcome = some (Outcome.rejected (Reason.aggregate u.errors)) := by
            show Option.orElse u.outcome
              (fun _ => some (Outcome.rejected (Reason.aggregate u.errors)))
              = some (Outcome.rejected (Reason.aggregate u.errors))
            rw [hout]
            rfl
          refine ⟨fun hcon => ?_, ?_, fun _ => hn, fun r hr => ?_⟩
          · have hcon' : (true : Bool) = false := hcon
            exact Bool.noConfusion hcon'
          · constructor
            · intro hc
              rw [ho] at hc
              exact Option.noConfusion hc
            · intro hc
              have hc' : (true : Bool) = false := hc
              exact Bool.noConfusion hc'
          · rw [ho] at hr
            have hr' : Reason.aggregate u.errors = r := by
              have := Option.some.inj hr
              exact Outcome.rejected.inj this
            exact ⟨hr'.symm, hne, rfl⟩
      · next hB =>
          have hset : ∀ xs : List (Option (MapOut R)),
              (settleSt { u with pulled := u.pulled + 1, currentIndex := u.currentIndex + 1, isIterableDone := true, isResolved := true } (Outcome.resolved xs)).outcome = some (Outcome.resolved xs) := by
            intro xs
            show Option.orElse u.outcome (fun _ => some (Outcome.resolved xs))
              = some (Outcome.resolved xs)
            rw [hout]
            rfl
          split
          · refine ⟨fun hcon => ?_, ?_, fun _ => hn, fun r hr => ?_⟩
            · have hcon' : (true : Bool) = false := hcon
              exact Bool.noConfusion hcon'
            · constructor
              · intro hc
                rw [hset] at hc
                exact Option.noConfusion hc
              · intro hc
                have hc' : (true : Bool) = false := hc
                exact Bool.noConfusion hc'
            · rw [hset] at hr
              exact Outcome.noConfusion (Option.some.inj hr)
          · refine ⟨fun hcon => ?_, ?_, fun _ => hn, fun r hr => ?_⟩
            · have hcon' : (true : Bool) = false := hcon
              exact Bool.noConfusion hcon'
            · constructor
              · intro hc
                rw [hset] at hc
                exact Option.noConfusion hc
              · intro hc
                have hc' : (true : Bool) = false := hc
                exact Bool.noConfusion hc'
            · rw [hset] at hr
              exact Outcome.noConfusion (Option.some.inj hr)
  · refine ⟨fun _ => hrc, ⟨fun _ => hres, fun _ => hout⟩, fun hcon => ?_, fun r hr => ?_⟩
    · have hcon' : u.isResolved = true := hcon
      rw [hres] at hcon'
      exact Bool.noConfusion hcon'
    · have hr' : u.outcome = some (Outcome.rejected r) := hr
      rw [hout] at hr'
      exact Option.noConfusion hr'

theorem countTasks_append3 (l₁ d l₂ : List (Strand T R E)) :
    countTasks (l₁ ++ d ++ l₂) = countTasks l₁ + countTasks d + countTasks l₂ := by
  rw [countTasks_append, countTasks_append]

theorem driverNext_resolved (cfg : Cfg T R E) (s : St R E) (i : Nat)
    (hres : s.isResolved = true) :
    driverNext cfg s i = (s, [Strand.driver (i + 1)]) := by
  unfold driverNext
  rw [doNext_of_resolved cfg s hres]
  rfl

theorem driverNext_val (cfg : Cfg T R E) (s : St R E) (i : Nat) (t : T)
    (hres : s.isResolved = false)
    (hpull : cfg.source.get? s.pulled = some (.val t)) :
    driverNext cfg s i =
      ({ s with pulled := s.pulled + 1, currentIndex := s.currentIndex + 1, resolvingCount := s.resolvingCount + 1 },
       [Strand.taskStart s.currentIndex t, Strand.driver (i + 1)]) := by
  unfold driverNext
  rw [doNext_of_val cfg s t hres hpull]
  rfl

theorem driverNext_done (cfg : Cfg T R E) (s : St R E) (i : Nat)
    (hres : s.isResolved = false)
    (hpull : cfg.source.get? s.pulled = none) :
    driverNext cfg s i = ((doneStep cfg s).1, [Strand.driver (i + 1)]) := by
  unfold driverNext
  rw [doNext_of_done cfg s hres hpull]
  rcases hds : doneStep cfg s with ⟨u', r'⟩
  have h2 := doneStep_snd cfg s
  rw [hds] at h2
  have h3 : r' = NextRes.ok none := h2
  subst h3
  rfl

theorem settleOk_val (cfg : Cfg T R E) (s : St R E) (index : Nat)
    (v : MapOut R) (t : T)
    (hres : (writeResult s index v).isResolved = false)
    (hpull : cfg.source.get? (writeResult s index v).pulled = some (.val t)) :
    settleOk cfg s index v =
      ({ writeResult s index v with pulled := (writeResult s index v).pulled + 1, currentIndex := (writeResult s index v).currentIndex + 1, resolvingCount := (writeResult s index v).resolvingCount + 1 },
       [Strand.taskStart (writeResult s index v).currentIndex t]) := by
  unfold settleOk
  rw [doNext_of_val _ _ t hres hpull]
  rfl

theorem settleOk_done (cfg : Cfg T R E) (s : St R E) (index : Nat)
    (v : MapOut R)
    (hres : (writeResult s index v).isResolved = false)
    (hpull : cfg.source.get? (writeResult s index v).pulled = none) :
    settleOk cfg s index v = ((doneStep cfg (writeResult s index v)).1, []) := by
  unfold settleOk
  rw [doNext_of_done _ _ hres hpull]
  rcases hds : doneStep cfg (writeResult s index v) with ⟨u', r'⟩
  have h2 := doneStep_snd cfg (writeResult s index v)
  rw [hds] at h2
  have h3 : r' = NextRes.ok none := h2
  subst h3
  rfl

theorem settleOk_resolved (cfg : Cfg T R E) (s : St R E) (index : Nat)
    (v : MapOut R) (hres : (writeResult s index v).isResolved = true) :
    settleOk cfg s index v = (writeResult s index v, []) := by
  unfold settleOk
  rw [doNext_of_resolved _ _ hres]
  rfl

theorem catchBlock_false_val (cfg : Cfg T R E) (s : St R E) (e : E) (t : T)
    (hstop : cfg.stopOnError = false)
    (hres : (logError s e).isResolved = false)
    (hpull : cfg.source.get? (logError s e).pulled = some (.val t)) :
    catchBlock cfg s e =
      ({ logError s e with pulled := (logError s e).pulled + 1, currentIndex := (logError s e).currentIndex + 1, resolvingCount := (logError s e).resolvingCount + 1 },
       [Strand.taskStart (logError s e).currentIndex t]) := by
  unfold catchBlock
  rw [if_neg (by rw [hstop]; simp)]
  rw [doNext_of_val _ _ t hres hpull]
  rfl

theorem catchBlock_false_done (cfg : Cfg T R E) (s : St R E) (e : E)
    (hstop : cfg.stopOnError = false)
    (hres : (logError s e).isResolved = false)
    (hpull : cfg.source.get? (logError s e).pulled = none) :
    catchBlock cfg s e = ((doneStep cfg (logError s e)).1, []) := by
  unfold catchBlock
  rw [if_neg (by rw [hstop]; simp)]
  rw [doNext_of_done _ _ hres hpull]
  rcases hds : doneStep cfg (logError s e) with ⟨u', r'⟩
  have h2 := doneStep_snd cfg (logError s e)
  rw [hds] at h2
  have h3 : r' = NextRes.ok none := h2
  subst h3
  rfl

theorem aggInv_mk_unsettled (s' : St R E) (L' : List (Strand T R E))
    (hres : s'.isResolved = false) (hout : s'.outcome = none)
    (hrc : s'.resolvingCount = (countTasks L' : Int)) : AggInv s' L' := by
  refine ⟨fun _ => hrc, ⟨fun _ => hres, fun _ => hout⟩, fun hc => ?_, fun r hr => ?_⟩
  · exact Bool.noConfusion (hc.symm.trans hres)
  · rw [hout] at hr
    exact Option.noConfusion hr

theorem aggInv_mk_settled (s : St R E) (L L' : List (Strand T R E))
    (h : AggInv s L) (hres : s.isResolved = true)
    (hcnt : countTasks L' = countTasks L) : AggInv s L' := by
  refine ⟨fun hc => Bool.noConfusion (hres.symm.trans hc), h.out_res,
    fun _ => ?_, h.rej⟩
  rw [hcnt]
  exact h.res_tasks hres

theorem aggInv_mk_done (cfg : Cfg T R E) (hstop : cfg.stopOnError = false)
    (u : St R E) (l₁ l₂ mid : List (Strand T R E))
    (hmid : countTasks mid = 0)
    (hres : u.isResolved = false) (hout : u.outcome = none)
    (hrc : u.resolvingCount = ((countTasks l₁ + countTasks l₂ : Nat) : Int)) :
    AggInv (doneStep cfg u).1 (l₁ ++ mid ++ l₂) := by
  have haux := aggInv_doneStep cfg hstop u (countTasks l₁ + countTasks l₂)
    hres hout hrc
  have hcnt : countTasks (l₁ ++ mid ++ l₂) = countTasks l₁ + countTasks l₂ := by
    rw [countTasks_append3, hmid]
    omega
  refine ⟨fun hc => ?_, haux.2.1, fun hc => ?_, haux.2.2.2⟩
  · rw [hcnt]
    exact haux.1 hc
  · rw [hcnt]
    exact haux.2.2.1 hc

theorem countTasks_nil : countTasks ([] : List (Strand T R E)) = 0 := rfl

theorem countTasks_driver1 (j : Nat) :
    countTasks ([Strand.driver j] : List (Strand T R E)) = 0 := rfl

theorem countTasks_start1 (i : Nat) (t : T) :
    countTasks ([Strand.taskStart i t] : List (Strand T R E)) = 1 := rfl

theorem countTasks_await1 (i : Nat) (out : Except E (MapOut R)) :
    countTasks ([Strand.taskAwait i out] : List (Strand T R E)) = 1 := rfl

theorem countTasks_start_driver (i j : Nat) (t : T) :
    countTasks ([Strand.taskStart i t, Strand.driver j] : List (Strand T R E)) = 1 := rfl

theorem aggInv_step (cf : Bool) (cfg : Cfg T R E)
    (hstop : cfg.stopOnError = false)
    (hsrc : ∀ p ∈ cfg.source, ∃ t, p = PullItem.val t)
    (s : St R E) (l₁ l₂ : List (Strand T R E)) (str : Strand T R E)
    (h : AggInv s (l₁ ++ str :: l₂)) :
    AggInv (runStrand cf cfg s str).1 (l₁ ++ (runStrand cf cfg s str).2 ++ l₂) := by
  by_cases hres : s.isResolved = true
  · cases str with
    | taskStart index t =>
        exact absurd (h.res_tasks hres)
          (countTasks_pos_of_mem l₁ l₂ (Strand.taskStart index t) rfl)
    | taskAwait index out =>
        exact absurd (h.res_tasks hres)
          (countTasks_pos_of_mem l₁ l₂ (Strand.taskAwait index out) rfl)
    | driver i =>
        rw [runStrand_driver]
        have hcnt0 : countTasks (l₁ ++ Strand.driver i :: l₂)
            = countTasks l₁ + countTasks l₂ :=
          countTasks_middle_zero l₁ l₂ _ rfl
        split
        · exact aggInv_mk_settled s _ _ h hres
            (by rw [countTasks_append3, countTasks_nil, hcnt0]; omega)
        · split
          · exact aggInv_mk_settled s _ _ h hres
              (by rw [countTasks_append3, countTasks_nil, hcnt0]; omega)
          · rw [driverNext_resolved cfg s i hres]
            exact aggInv_mk_settled s _ _ h hres
              (by rw [countTasks_append3, countTasks_driver1, hcnt0]; omega)
  · have hres' : s.isResolved = false := Bool.eq_false_iff.mpr hres
    have hout : s.outcome = none := h.out_res.mpr hres'
    cases str with
    | driver i =>
        rw [runStrand_driver]
        have hcnt0 : countTasks (l₁ ++ Strand.driver i :: l₂)
            = countTasks l₁ + countTasks l₂ :=
          countTasks_middle_zero l₁ l₂ _ rfl
        have hrc0 := h.rc hres'
        rw [hcnt0] at hrc0
        split
        · exact aggInv_mk_unsettled s _ hres' hout
            (by rw [countTasks_append3, countTasks_nil]; omega)
        · split
          · exact aggInv_mk_unsettled s _ hres' hout
              (by rw [countTasks_append3, countTasks_nil]; omega)
          · cases hpull : cfg.source.get? s.pulled with
            | some p =>
                cases p with
                | err e => exact absurd hpull (no_err_pull cfg hsrc s.pulled e)
                | val t =>
                    rw [driverNext_val cfg s i t hres' hpull]
                    refine aggInv_mk_unsettled _ _ hres' hout ?_
                    show s.resolvingCount + 1 = (countTasks (l₁ ++
                      [Strand.taskStart s.currentIndex t, Strand.driver (i + 1)]
                      ++ l₂) : Int)
                    rw [countTasks_append3, countTasks_start_driver]
                    omega
            | none =>
                rw [driverNext_done cfg s i hres' hpull]
                exact aggInv_mk_done cfg hstop s l₁ l₂ [Strand.driver (i + 1)]
                  (countTasks_driver1 (i + 1)) hres' hout (by omega)
    | taskStart index t =>
        rw [runStrand_taskStart, if_neg (by rw [hres']; simp)]
        refine aggInv_mk_unsettled _ _ hres' hout ?_
        show s.resolvingCount = (countTasks (l₁ ++
          [Strand.taskAwait index (cfg.mapper t index)] ++ l₂) : Int)
        rw [countTasks_append3, countTasks_await1]
        have hrc0 := h.rc hres'
        rw [countTasks_middle l₁ l₂ (Strand.taskStart index t) rfl] at hrc0
        omega
    | taskAwait index out =>
        have hrc0 := h.rc hres'
        rw [countTasks_middle l₁ l₂ (Strand.taskAwait index out) rfl] at hrc0
        cases out with
        | ok v =>
            rw [runStrand_taskAwait_ok]
            cases hpull : cfg.source.get? (writeResult s index v).pulled with
            | some p =>
                cases p with
                | err e => exact absurd hpull (no_err_pull cfg hsrc _ e)
                | val t =>
                    rw [settleOk_val cfg s index v t hres' hpull]
                    refine aggInv_mk_unsettled _ _ hres' hout ?_
                    show s.resolvingCount - 1 + 1 = (countTasks (l₁ ++
                      [Strand.taskStart s.currentIndex t] ++ l₂) : Int)
                    rw [countTasks_append3, countTasks_start1]
                    omega
            | none =>
                rw [settleOk_done cfg s index v hres' hpull]
                exact aggInv_mk_done cfg hstop (writeResult s index v) l₁ l₂ []
                  countTasks_nil hres' hout
                  (by show s.resolvingCount - 1
                        = ((countTasks l₁ + countTasks l₂ : Nat) : Int)
                      omega)
        | error e =>
            rw [runStrand_taskAwait_error]
            cases hpull : cfg.source.get? (logError s e).pulled with
            | some p =>
                cases p with
                | err e₂ => exact absurd hpull (no_err_pull cfg hsrc _ e₂)
                | val t =>
                    rw [catchBlock_false_val cfg s e t hstop hres' hpull]
                    refine aggInv_mk_unsettled _ _ hres' hout ?_
                    show s.resolvingCount - 1 + 1 = (countTasks (l₁ ++
                      [Strand.taskStart s.currentIndex t] ++ l₂) : Int)
                    rw [countTasks_append3, countTasks_start1]
                    omega
            | none =>
                rw [catchBlock_false_done cfg s e hstop hres' hpull]
                exact aggInv_mk_done cfg hstop (logError s e) l₁ l₂ []
                  countTasks_nil hres' hout
                  (by show s.resolvingCount - 1
                        = ((countTasks l₁ + countTasks l₂ : Nat) : Int)
                      omega)

theorem aggInv_reach (cf : Bool) (cfg : Cfg T R E)
    (hstop : cfg.stopOnError = false)
    (hsrc : ∀ p ∈ cfg.source, ∃ t, p = PullItem.val t)
    (p : St R E × List (Strand T R E)) (h : Reach cf cfg p) :
    AggInv p.1 p.2 := by
  induction h with
  | init =>
      refine ⟨fun _ => rfl, ⟨fun _ => rfl, fun _ => rfl⟩, fun hc => ?_,
        fun r hr => ?_⟩
      · have hc' : (false : Bool) = true := hc
        exact Bool.noConfusion hc'
      · have hr' : (none : Option (Outcome R E)) = some (Outcome.rejected r) := hr
        exact Option.noConfusion hr'
  | @step s l₁ l₂ str h ih =>
      exact aggInv_step cf cfg hstop hsrc s l₁ l₂ str ih

theorem not_mem_of_noNL (s : JStr) (h : noNL s = true) : '\n' ∉ s := by
  simp only [noNL, Bool.not_eq_true', List.any_eq_false] at h
  intro hm
  have hcon := h '\n' hm
  simp at hcon

theorem noNL_append (a b : JStr) (ha : noNL a = true) (hb : noNL b = true) :
    noNL (a ++ b) = true := by
  simp only [noNL, Bool.not_eq_true', List.any_eq_false] at ha hb ⊢
  intro x hx
  rcases List.mem_append.mp hx with hxa | hxb
  · exact ha x hxa
  · exact hb x hxb

theorem splitLines_no_newline (s : JStr) (h : '\n' ∉ s) : splitLines s = [s] := by
  induction s with
  | nil => rfl
  | cons c cs ih =>
      have hc : ¬(c = '\n') := fun hh => h (hh ▸ List.mem_cons_self c cs)
      have hcs : '\n' ∉ cs := fun hm => h (List.mem_cons_of_mem c hm)
      unfold splitLines
      rw [if_neg hc, ih hcs]

theorem splitLines_cons (c : Char) (cs : JStr) :
    splitLines (c :: cs) =
      if c = '\n' then [] :: splitLines cs
      else
        match splitLines cs with
        | [] => [[c]]
        | l :: ls => (c :: l) :: ls := rfl

theorem splitLines_append (x t : JStr) (hx : '\n' ∉ x) :
    splitLines (x ++ '\n' :: t) = x :: splitLines t := by
  induction x with
  | nil =>
      show splitLines ('\n' :: t) = [] :: splitLines t
      rw [splitLines_cons, if_pos rfl]
  | cons c cs ih =>
      have hc : ¬(c = '\n') := fun hh => hx (hh ▸ List.mem_cons_self c cs)
      have hcs : '\n' ∉ cs := fun hm => hx (List.mem_cons_of_mem c hm)
      show splitLines (c :: (cs ++ '\n' :: t)) = (c :: cs) :: splitLines t
      rw [splitLines_cons, if_neg hc, ih hcs]

theorem splitLines_joinNL (ls : List JStr) (h : ∀ l ∈ ls, '\n' ∉ l)
    (hne : ls ≠ []) : splitLines (joinNL ls) = ls := by
  induction ls with
  | nil => exact absurd rfl hne
  | cons x xs ih =>
      cases xs with
      | nil =>
          show splitLines x = [x]
          exact splitLines_no_newline x (h x (List.mem_cons_self x []))
      | cons y ys =>
          show splitLines (x ++ '\n' :: joinNL (y :: ys)) = x :: (y :: ys)
          rw [splitLines_append x _ (h x (List.mem_cons_self _ _))]
          rw [ih (fun l hl => h l (List.mem_cons_of_mem x hl)) (by simp)]

theorem appearsInOrder_prepend (p : JStr) (ts : List JStr) (s : JStr)
    (h : AppearsInOrder ts s) : AppearsInOrder ts (p ++ s) := by
  induction h with
  | nil s => exact .nil _
  | cons pre t rest ts h ih =>
      have heq : p ++ (pre ++ t ++ rest) = (p ++ pre) ++ t ++ rest := by
        simp [List.append_assoc]
      rw [heq]
      exact .cons (p ++ pre) t rest ts h

theorem appearsInOrder_joinNL (ts ms : List JStr)
    (h : List.Forall₂ (fun t m => ∃ p q, m = p ++ t ++ q) ts ms) :
    AppearsInOrder ts (joinNL ms) := by
  induction h with
  | nil => exact .nil _
  | @cons t m ts ms hm htail ih =>
      obtain ⟨p, q, rfl⟩ := hm
      cases ms with
      | nil =>
          cases htail
          show AppearsInOrder [t] (p ++ t ++ q)
          exact .cons p t q [] (.nil q)
      | cons m' ms' =>
          show AppearsInOrder (t :: ts) ((p ++ t ++ q) ++ '\n' :: joinNL (m' :: ms'))
          have heq : (p ++ t ++ q) ++ '\n' :: joinNL (m' :: ms')
              = p ++ t ++ (q ++ '\n' :: joinNL (m' :: ms')) := by
            simp [List.append_assoc]
          rw [heq]
          have h2 : AppearsInOrder ts ((q ++ ['\n']) ++ joinNL (m' :: ms')) :=
            appearsInOrder_prepend _ ts _ ih
          have h3 : (q ++ ['\n']) ++ joinNL (m' :: ms')
              = q ++ '\n' :: joinNL (m' :: ms') := by simp
          rw [h3] at h2
          exact .cons p t _ ts h2

theorem errorToString_shape (er : JsError) :
    ∃ p, errorToString er = p ++ er.message := by
  unfold errorToString
  by_cases h1 : er.name.isEmpty = true
  · rw [if_pos h1]
    exact ⟨[], rfl⟩
  · rw [if_neg h1]
    by_cases h2 : er.message.isEmpty = true
    · rw [if_pos h2]
      have hm : er.message = [] := List.isEmpty_iff.mp h2
      exact ⟨er.name, by rw [hm]; simp⟩
    · rw [if_neg h2]
      exact ⟨er.name ++ ": ".data, by simp [List.append_assoc]⟩

theorem errorToString_noNL (er : JsError) (hn : noNL er.name = true)
    (hm : noNL er.message = true) : noNL (errorToString er) = true := by
  unfold errorToString
  by_cases h1 : er.name.isEmpty = true
  · rw [if_pos h1]
    exact hm
  · rw [if_neg h1]
    by_cases h2 : er.message.isEmpty = true
    · rw [if_pos h2]
      exact hn
    · rw [if_neg h2]
      exact noNL_append _ _ (noNL_append _ _ hn (by decide)) hm

theorem plain_render (e : ErrorLike) (hp : plainError e = true) :
    (∃ p, renderError (normalizeError e) = p ++ errorLikeMessage e) ∧
    noNL (renderError (normalizeError e)) = true := by
  cases e with
  | err er =>
      have hp' : (er.stack.isNone && noNL er.name && noNL er.message) = true := hp
      have h1 : er.stack.isNone = true := by
        rcases Bool.and_eq_true_iff.mp hp' with ⟨h12, _⟩
        exact (Bool.and_eq_true_iff.mp h12).1
      have h2 : noNL er.name = true := by
        rcases Bool.and_eq_true_iff.mp hp' with ⟨h12, _⟩
        exact (Bool.and_eq_true_iff.mp h12).2
      have h3 : noNL er.message = true := (Bool.and_eq_true_iff.mp hp').2
      have hst : er.stack = none := Option.isNone_iff_eq_none.mp h1
      have hre : renderError (normalizeError (ErrorLike.err er))
          = errorToString er := by
        show renderError er = errorToString er
        unfold renderError
        rw [hst]
      rw [hre]
      exact ⟨errorToString_shape er, errorToString_noNL er h2 h3⟩
  | obj m =>
      have h3 : noNL m = true := hp
      show (∃ p, errorToString (newError m) = p ++ m) ∧
        noNL (errorToString (newError m)) = true
      exact ⟨errorToString_shape (newError m),
        errorToString_noNL (newError m) (show noNL "Error".data = true by decide) h3⟩
  | str s =>
      have h3 : noNL s = true := hp
      show (∃ p, errorToString (newError s) = p ++ s) ∧
        noNL (errorToString (newError s)) = true
      exact ⟨errorToString_shape (newError s),
        errorToString_noNL (newError s) (show noNL "Error".data = true by decide) h3⟩

theorem forall₂_msg (es : List ErrorLike) (hp : ∀ e ∈ es, plainError e = true) :
    List.Forall₂ (fun t m => ∃ p q, m = p ++ t ++ q)
      (es.map errorLikeMessage)
      (es.map (fun e =>
        if (false : Bool) || !isBlankLine (renderError (normalizeError e)) then
          jsRepeat " ".data 4 ++ renderError (normalizeError e)
        else renderError (normalizeError e))) := by
  induction es with
  | nil => exact .nil
  | cons e es ih =>
      refine .cons ?_ (ih (fun x hx => hp x (List.mem_cons_of_mem e hx)))
      obtain ⟨p, hp1⟩ := (plain_render e (hp e (List.mem_cons_self e es))).1
      have hshape : ∃ p',
          (if (false : Bool) || !isBlankLine (renderError (normalizeError e)) then
            jsRepeat " ".data 4 ++ renderError (normalizeError e)
          else renderError (normalizeError e))
          = p' ++ renderError (normalizeError e) := by
        split
        · exact ⟨jsRepeat " ".data 4, rfl⟩
        · exact ⟨[], rfl⟩
      obtain ⟨p', hp2⟩ := hshape
      exact ⟨p' ++ p, [], by dsimp only; rw [hp2, hp1]; simp [List.append_assoc]⟩

theorem aggregate_message_order (es : List ErrorLike)
    (hp : ∀ e ∈ es, plainError e = true) (hne : es ≠ []) :
    AppearsInOrder (es.map errorLikeMessage) (aggregateMessage es) := by
  have hlines : ∀ l ∈ (es.map normalizeError).map renderError, '\n' ∉ l := by
    intro l hl
    simp only [List.mem_map] at hl
    obtain ⟨er, ⟨e, he, heq⟩, rfl⟩ := hl
    rw [← heq]
    exact not_mem_of_noNL _ ((plain_render e (hp e he)).2)
  have hlne : (es.map normalizeError).map renderError ≠ [] := by
    simp only [ne_eq, List.map_eq_nil_iff]
    exact hne
  unfold aggregateMessage indentString
  rw [if_neg (by decide)]
  rw [splitLines_joinNL _ hlines hlne]
  have hmain : AppearsInOrder (es.map errorLikeMessage)
      (joinNL (((es.map normalizeError).map renderError).map
        (fun line => if (false : Bool) || !isBlankLine line then
          jsRepeat " ".data 4 ++ line else line))) := by
    apply appearsInOrder_joinNL
    rw [List.map_map, List.map_map]
    exact forall₂_msg es hp
  exact appearsInOrder_prepend ['\n'] _ _ hmain

/-- C4 counterexample: under `stopOnError = false` a failure of the very
first pull rejects the call immediately with that bare error — not with an
`AggregateError` and not deferred to the end of the run.  On
`exCfgFirstPull` (a source whose first pull throws `7`), one runner step
settles the call with the direct reason `Reason.err 7`, which is not an
aggregate of any error list. -/
theorem c4_counterexample :
    exCfgFirstPull.stopOnError = false ∧
    (runSched false exCfgFirstPull [0] initPair).1.outcome
      = some (Outcome.rejected (Reason.err 7)) ∧
    ∀ es : List Nat, Reason.err 7 ≠ Reason.aggregate es := by
  refine ⟨rfl, by decide, fun es h => Reason.noConfusion h⟩

/-- C4 (amended: restricted to sources whose pulls never fail — the
unrestricted claim is refuted by `c4_counterexample`): under
`stopOnError = false`, any rejection the call records is a single
composite failure, the aggregate of the entire nonempty error log — whose
entries were appended at failure-completion time, so the aggregated list
holds every logged failure in completion order — and it is recorded only
once the source is exhausted and no task is left in flight; the rendered
`AggregateError` message of single-line failures contains every failure's
message text, in that order.  The restriction matters in both directions:
a first-pull failure rejects bare (the counterexample), while a pull
failure that lands in a settling task's refill `await next()` falls into
that task's catch block and IS logged and aggregated like a mapper
failure — the third conjunct exhibits such a run (`exCfgRefill`, whose
third pull throws `9`) rejecting with `AggregateError([9])`, while the
double decrement of `resolvingCount` even leaves a task in flight at that
rejection. -/
theorem c4_aggregate_rejection (cfg : Cfg T R E) (cf : Bool)
    (hstop : cfg.stopOnError = false)
    (hsrc : ∀ p ∈ cfg.source, ∃ t, p = PullItem.val t) :
    (∀ (s : St R E) (L : List (Strand T R E)), Reach cf cfg (s, L) →
      ∀ r, s.outcome = some (Outcome.rejected r) →
        r = Reason.aggregate s.errors ∧ s.errors ≠ [] ∧
          s.isIterableDone = true ∧ countTasks L = 0) ∧
    (∀ (es : List ErrorLike) (st : Store), (∀ e ∈ es, plainError e = true) →
      es ≠ [] →
      AppearsInOrder (es.map errorLikeMessage)
        ((mkAggregateError es st).1.message)) ∧
    ((runSched false exCfgRefill [0, 1, 2, 0, 0, 0, 0] initPair).1.outcome
        = some (Outcome.rejected (Reason.aggregate [9])) ∧
      countTasks (runSched false exCfgRefill [0, 1, 2, 0, 0, 0, 0] initPair).2
        = 1) := by
  refine ⟨?_, ?_, by decide, by decide⟩
  · intro s L h r hr
    have hinv := aggInv_reach cf cfg hstop hsrc (s, L) h
    obtain ⟨h1, h2, h3⟩ := hinv.rej r hr
    refine ⟨h1, h2, h3, ?_⟩
    have hres : s.isResolved = true := by
      cases hb : s.isResolved
      · exact absurd (hinv.out_res.mpr hb) (by rw [hr]; simp)
      · rfl
    exact hinv.res_tasks hres
  · intro es st hp hne
    show AppearsInOrder (es.map errorLikeMessage) (aggregateMessage es)
    exact aggregate_message_order es hp hne

/-- Witness for C4 (amended) on the concrete run with two mapper failures
`"foo"` then `"bar"` under `stopOnError = false`: the rejection reason is
the aggregate of exactly the full log, at exhaustion, with no task left. -/
theorem c4_aggregate_rejection_witness :
    exCfgAgg.stopOnError = false ∧
    ((Reason.aggregate [ErrorLike.str "foo".data, ErrorLike.str "bar".data]
        : Reason ErrorLike)
        = Reason.aggregate
            (runSched false exCfgAgg [0, 0, 0, 0, 0] initPair).1.errors ∧
      (runSched false exCfgAgg [0, 0, 0, 0, 0] initPair).1.errors ≠ [] ∧
      (runSched false exCfgAgg [0, 0, 0, 0, 0] initPair).1.isIterableDone
        = true ∧
      countTasks (runSched false exCfgAgg [0, 0, 0, 0, 0] initPair).2 = 0) ∧
    AppearsInOrder
      ([ErrorLike.str "foo".data, ErrorLike.str "bar".data].map errorLikeMessage)
      ((mkAggregateError [ErrorLike.str "foo".data, ErrorLike.str "bar".data]
        []).1.message) := by
  have hsrc : ∀ p ∈ ([PullItem.val 1, PullItem.val 2] :
      List (PullItem Nat ErrorLike)), ∃ t, p = PullItem.val t := by
    intro p hp
    simp at hp
    rcases hp with rfl | rfl
    · exact ⟨1, rfl⟩
    · exact ⟨2, rfl⟩
  refine ⟨rfl, ?_, ?_⟩
  · exact (c4_aggregate_rejection exCfgAgg false rfl hsrc).1
      (runSched false exCfgAgg [0, 0, 0, 0, 0] initPair).1
      (runSched false exCfgAgg [0, 0, 0, 0, 0] initPair).2
      (reach_runSched false exCfgAgg [0, 0, 0, 0, 0] initPair Reach.init)
      (Reason.aggregate [ErrorLike.str "foo".data, ErrorLike.str "bar".data])
      (by decide)
  · exact (c4_aggregate_rejection exCfgAgg false rfl hsrc).2.1
      [ErrorLike.str "foo".data, ErrorLike.str "bar".data] []
      (by decide) (by decide)

end PMapLit
